import Mathlib

/-! The nsb live patcher: place allocator, VMA inventory, ELF image loader and
instruction synthesizer.

A shallow embedding of `src/patcher/x86_64.c`, `src/patcher/vma.c`,
`src/patcher/process.c` and `src/patcher/elf.c`.  Values of type `unsigned long` / `size_t` are natural
numbers reduced modulo `2^64`, `long` and `int` values are integers obtained by
the two's-complement reading of the 64-bit or 32-bit word.
-/

namespace Nsb

/-! ## Machine arithmetic -/

/-- Unsigned 64-bit subtraction `a - b` of two `unsigned long` values. -/
def usub64 (a b : Nat) : Nat := (a + (2 ^ 64 - b % 2 ^ 64)) % 2 ^ 64

/-- Conversion of a 64-bit word to `long` (two's complement). -/
def toLong (x : Nat) : Int :=
  if x % 2 ^ 64 < 2 ^ 63 then ((x % 2 ^ 64 : Nat) : Int) else ((x % 2 ^ 64 : Nat) : Int) - 2 ^ 64

/-- Conversion of a `long` (or `int`) to `unsigned long`. -/
def ofLong (x : Int) : Nat := (x % 2 ^ 64).toNat

/-- Conversion of an integer value to `int` (keeps the low 32 bits, two's complement). -/
def toInt32 (x : Int) : Int :=
  if x % 2 ^ 32 < 2 ^ 31 then x % 2 ^ 32 else x % 2 ^ 32 - 2 ^ 32

/-! ## Instruction synthesizer (`x86_64.c`) -/

/-- Bytes of the caller's buffer, indexed by offset from `buf`. -/
abbrev Buf := Nat → Nat

/-- Store of one `unsigned char` at offset `i`. -/
def store8 (buf : Buf) (i v : Nat) : Buf :=
  fun j => if j = i then v % 256 else buf j

/-- Store of one `unsigned int` at offset `i` (x86_64 is little-endian): the value is
truncated to 32 bits and its four bytes land at `i .. i+3`. -/
def store32 (buf : Buf) (i v : Nat) : Buf :=
  fun j => if i ≤ j ∧ j < i + 4 then (v % 2 ^ 32) / 256 ^ (j - i) % 256 else buf j

def X64_CALLQ : Nat := 0xe8
def X64_JMPQ : Nat := 0xe9
def X64_JMP : Nat := 0xeb

/-- Modelled from the spec: the generated protobuf enumeration `OBJ_INFO__OBJ_TYPE__*`
(its header is not part of the sources).  The three kinds the encoder switches on are
distinct constants; every other integer is `unknown`. -/
inductive ObjType where
  | CALL
  | JMPQ
  | JMP
  | unknown (n : Int)
  deriving DecidableEq

/-- Function `ip_change_relative`: the opcode goes to `buf[0]`, then the 64-bit difference
`tgt_pos - cur_pos - cmd_size` is stored through an `unsigned int *` at `buf + 1`;
the result is `cmd_size` converted to `int`. -/
def ip_change_relative (buf : Buf) (opcode cur_pos tgt_pos cmd_size : Nat) : Int × Buf :=
  let buf1 := store8 buf 0 opcode
  let buf2 := store32 buf1 1 (usub64 (usub64 tgt_pos cur_pos) cmd_size)
  (toInt32 cmd_size, buf2)

/-- Function `x86_create_instruction`. -/
def x86_create_instruction (buf : Buf) (type : ObjType) (cur_pos tgt_pos : Nat) : Int × Buf :=
  match type with
  | .CALL => ip_change_relative buf X64_CALLQ cur_pos tgt_pos 5
  | .JMPQ => ip_change_relative buf X64_JMPQ cur_pos tgt_pos 5
  | .JMP => ip_change_relative buf X64_JMP cur_pos tgt_pos 2
  | .unknown _ => (-1, buf)

/-- Specification side: the signed little-endian 32-bit integer held in `buf[1..4]`,
as the processor decodes the displacement of a 5-byte CALL/JMPQ. -/
def decode_rel32 (buf : Buf) : Int :=
  let u : Nat := buf 1 + 256 * buf 2 + 256 ^ 2 * buf 3 + 256 ^ 3 * buf 4
  if u < 2 ^ 31 then (u : Int) else (u : Int) - 2 ^ 32

/-- Specification side: byte `i` of the little-endian 32-bit two's-complement
encoding of the integer `d`. -/
def le32_byte (d : Int) (i : Nat) : Nat := (d % 2 ^ 32).toNat / 256 ^ i % 256

/-! ## VMA inventory (`vma.c`) -/

/-- One row of `/proc/<pid>/maps` (`struct vma_area`; the field `end` is spelled `end_`). -/
structure VmaArea where
  start : Nat
  end_ : Nat
  prot : Nat
  flags : Nat
  pgoff : Nat
  path : String
  deriving DecidableEq, Repr

/-- Function `find_vma_by_addr`: the first entry that is skipped neither by `addr < vma->start`
nor by `addr > vma->end`. -/
def find_vma_by_addr : List VmaArea → Nat → Option VmaArea
  | [], _ => none
  | vma :: rest, addr =>
    if addr < vma.start then find_vma_by_addr rest addr
    else if addr > vma.end_ then find_vma_by_addr rest addr
    else some vma

/-- Function `find_vma_hole`.  `list_for_each_entry` visits every entry, the last one included;
for each it takes `next_vma = list_entry(vma->list.next, ...)`.  For the last entry
`vma->list.next` is the list head, so `next_vma->start` is the word found at the
corresponding offset from the head: it is no field of any VMA and is passed here as
`head_start`.  The comparison is unsigned 64-bit; `hint` is not read. -/
def find_vma_hole : List VmaArea → Nat → Nat → Nat → Nat
  | [], _, _, _ => 0
  | [vma], head_start, _, size =>
    if usub64 head_start vma.end_ > size then vma.end_ else 0
  | vma :: next_vma :: rest, head_start, hint, size =>
    if usub64 next_vma.start vma.end_ > size then vma.end_
    else find_vma_hole (next_vma :: rest) head_start hint size

/-! ## Place allocator (`process.c`) -/

def PAGE_SIZE : Nat := 4096
def ENOENT : Int := 2
def ENOMEM : Int := 12
def EFAULT : Int := 14
def PROT_READ : Nat := 1
def PROT_WRITE : Nat := 2
def PROT_EXEC : Nat := 4
def MAP_PRIVATE : Nat := 2
def MAP_ANONYMOUS : Nat := 0x20

/-- Modelled from the spec: the `round_up(x, y)` macro (defined in a header that is not
part of the sources): `x` rounded up to the next multiple of `y`, computed in
`unsigned long`, hence modulo `2^64`. -/
def round_up (x y : Nat) : Nat := ((x + (y - 1)) / y * y) % 2 ^ 64

/-- Structure `patch_place_s`. -/
structure PatchPlace where
  start : Nat
  size : Nat
  used : Nat
  deriving DecidableEq, Repr

/-- The arguments of one remote `mmap` executed by `compel_syscall`. -/
structure MmapCall where
  addr : Nat
  size : Nat
  prot : Nat
  flags : Nat
  fd : Int
  offset : Nat
  deriving DecidableEq, Repr

/-- The part of `struct process_ctx_s` the allocator works on: the VMA inventory, the
list of places, and the remote `mmap` calls issued so far (oldest first). -/
structure Ctx where
  vmas : List VmaArea
  places : List PatchPlace
  calls : List MmapCall
  deriving DecidableEq, Repr

/-- What the surroundings answer during one call of `process_get_place`:
`head_start` is the word `find_vma_hole` reads past the last VMA, `xmalloc_ok` tells
whether `xmalloc` returns memory, and `compel_syscall` gives, for a remote `mmap`, the
`int` result of `compel_syscall` and the word it leaves in `sret`. -/
structure Env where
  head_start : Nat
  xmalloc_ok : Bool
  compel_syscall : MmapCall → Int × Nat

/-- Function `process_create_map`: runs the remote `mmap`; `-1` when the tracer call fails or
the syscall result is negative, the syscall result otherwise. -/
def process_create_map (ctx : Ctx) (env : Env) (fd : Int) (offset addr size flags prot : Nat) :
    Int × Ctx :=
  let call : MmapCall := ⟨addr, size, prot, flags, fd, offset⟩
  let ctx1 : Ctx := { ctx with calls := ctx.calls ++ [call] }
  let ret := (env.compel_syscall call).1
  let sret := toLong (env.compel_syscall call).2
  if ret < 0 then (-1, ctx1)
  else if sret < 0 then (-1, ctx1)
  else (sret, ctx1)

/-- Function `find_place`: position in `bp->places` of the first place whose start has the
same upper 32 bits as `hint`. -/
def find_place : List PatchPlace → Nat → Option Nat
  | [], _ => none
  | place :: rest, hint =>
    if place.start &&& 0xffffffff00000000 = hint &&& 0xffffffff00000000 then some 0
    else (find_place rest hint).map (· + 1)

/-- Function `process_find_hole`: the hole address, or `-ENOENT` converted to `unsigned long`. -/
def process_find_hole (ctx : Ctx) (env : Env) (hint size : Nat) : Nat :=
  let addr := find_vma_hole ctx.vmas env.head_start hint size
  if addr ≠ 0 then addr else ofLong (-ENOENT)

/-- Function `process_create_place`.  The result is the `int` return value, the context, and
the position of the new place in `bp->places` when `*place` was assigned.  `addr` is an
`unsigned long`, so the test `addr < 0` is the comparison of natural numbers. -/
def process_create_place (ctx : Ctx) (env : Env) (hint size : Nat) : Int × Ctx × Option Nat :=
  let size := round_up size PAGE_SIZE
  let addr := process_find_hole ctx env hint size
  if addr < 0 then (-EFAULT, ctx, none)
  else if ¬ env.xmalloc_ok then (-ENOMEM, ctx, none)
  else
    let p : PatchPlace := { start := addr, size := size, used := 0 }
    let (ret, ctx1) := process_create_map ctx env (-1) 0 p.start p.size
      (MAP_ANONYMOUS ||| MAP_PRIVATE) (PROT_READ ||| PROT_WRITE ||| PROT_EXEC)
    if ret = -1 then (toInt32 ret, ctx1, none)
    else if ofLong ret ≠ p.start then (toInt32 ret, ctx1, none)
    else (0, { ctx1 with places := ctx1.places ++ [p] }, some ctx1.places.length)

/-- The tail of `process_get_place`: `addr = place->start + round_up(place->used, 16);
place->used += size; return addr;` for the place at position `i`.  No result (`none`)
stands for the dereference of a `place` that points to no place. -/
def place_alloc (ctx : Ctx) (i : Option Nat) (size : Nat) : Option Int × Ctx :=
  match i with
  | none => (none, ctx)
  | some i =>
    match ctx.places[i]? with
    | none => (none, ctx)
    | some place =>
      let addr := toLong (place.start + round_up place.used 16)
      (some addr,
        { ctx with places := ctx.places.set i { place with used := (place.used + size) % 2 ^ 64 } })

/-- Function `process_get_place`.  The result is `some v` when the function returns the `long`
value `v`, and `none` when it dereferences a null `place`. -/
def process_get_place (ctx : Ctx) (env : Env) (hint size : Nat) : Option Int × Ctx :=
  let size := round_up size 16
  match find_place ctx.places hint with
  | none =>
    let (ret, ctx1, place) := process_create_place ctx env hint size
    if ret ≠ 0 then (some ret, ctx1)
    else place_alloc ctx1 place size
  | some i =>
    match ctx.places[i]? with
    | none => (none, ctx)
    | some place =>
      if usub64 place.size place.used < size then (some (-ENOMEM), ctx)
      else place_alloc ctx (some i) size

/-- One call of `process_get_place` together with what the surroundings answer. -/
structure GetPlaceCall where
  env : Env
  hint : Nat
  size : Nat

/-- A sequence of `process_get_place` calls; a call that faults ends the run. -/
def run_get_place (ctx : Ctx) : List GetPlaceCall → Ctx
  | [] => ctx
  | c :: cs =>
    match process_get_place ctx c.env c.hint c.size with
    | (none, ctx1) => ctx1
    | (some _, ctx1) => run_get_place ctx1 cs

/-- The invariant carried through a run: every place has `used ≤ size`, a size that is
a 64-bit word, and a page-aligned start and size. -/
def PlacesOk (ps : List PatchPlace) : Prop :=
  ∀ p ∈ ps, p.used ≤ p.size ∧ p.size < 2 ^ 64 ∧ p.start % PAGE_SIZE = 0 ∧ p.size % PAGE_SIZE = 0

/-- The inventory of scenario S3: `[0x0000-0x1000], [0x4000-0x5000], [0x9000-0xA000]`. -/
def s3_vmas : List VmaArea :=
  [⟨0x0, 0x1000, 0, 0, 0, ""⟩, ⟨0x4000, 0x5000, 0, 0, 0, ""⟩, ⟨0x9000, 0xA000, 0, 0, 0, ""⟩]

/-! ## Victim control (`process.c`: `process_infect`, `process_cure`) -/

/-- Modelled from the spec: the constant `TASK_ALIVE` of the compel headers (not part of
the sources), the state `compel_stop_task` reports for a victim it has stopped. -/
def TASK_ALIVE : Int := 1

/-- A call into the tracer library or into the inventory builder, as `process_infect`
and `process_cure` make them. -/
inductive TracerCall where
  | compel_stop_task
  | compel_prepare
  | collect_vmas
  | print_vmas
  | compel_resume_task
  deriving DecidableEq, Repr

/-- What the tracer library and `collect_vmas` answer during one `process_infect`:
the state returned by `compel_stop_task`, whether `compel_prepare` returns a control
handle, and the `int` results of `collect_vmas` and of `compel_resume_task`. -/
structure InfectEnv where
  compel_stop_task : Int
  compel_prepare : Bool
  collect_vmas : Int
  compel_resume_task : Int

/-- Function `process_cure`: resumes the victim; -1 when `compel_resume_task` reports
failure, 0 otherwise.  The second component lists the calls made. -/
def process_cure (env : InfectEnv) : Int × List TracerCall :=
  if env.compel_resume_task ≠ 0 then (-1, [TracerCall.compel_resume_task])
  else (0, [TracerCall.compel_resume_task])

/-- Function `process_infect`: the `int` result and the calls made, in order. -/
def process_infect (env : InfectEnv) : Int × List TracerCall :=
  let ret := env.compel_stop_task
  if ret ≠ TASK_ALIVE then (ret, [TracerCall.compel_stop_task])
  else if ¬ env.compel_prepare then
    (-1, [TracerCall.compel_stop_task, TracerCall.compel_prepare])
  else if env.collect_vmas ≠ 0 then
    (-1, [TracerCall.compel_stop_task, TracerCall.compel_prepare, TracerCall.collect_vmas]
      ++ (process_cure env).2)
  else
    (0, [TracerCall.compel_stop_task, TracerCall.compel_prepare, TracerCall.collect_vmas,
      TracerCall.print_vmas])

/-! ## ELF image loader (`elf.c`) -/

def MAP_FIXED : Nat := 0x10
def PF_X : Nat := 1
def PF_W : Nat := 2
def PF_R : Nat := 4

/-- Macro `ELF_PAGESTART(_v)`: `(_v) & ~(unsigned long)(ELF_MIN_ALIGN-1)`. -/
def ELF_PAGESTART (v : Nat) : Nat := v &&& 0xfffffffffffff000

/-- Macro `ELF_PAGEOFFSET(_v)`: `(_v) & (ELF_MIN_ALIGN-1)`. -/
def ELF_PAGEOFFSET (v : Nat) : Nat := v &&& 0xfff

/-- Macro `ELF_PAGEALIGN(_v)`: `((_v) + ELF_MIN_ALIGN - 1) & ~(ELF_MIN_ALIGN - 1)`, in
`unsigned long`. -/
def ELF_PAGEALIGN (v : Nat) : Nat := ((v + 4096 - 1) % 2 ^ 64) &&& 0xfffffffffffff000

/-- Modelled from the spec: the protobuf message `ElfSegment` (its generated header is
not part of the sources): one program header of the replacement image.  A numeric
field holds the value the C expression reads after conversion to `unsigned long`. -/
structure ElfSegment where
  type : String
  offset : Nat
  vaddr : Nat
  paddr : Nat
  mem_sz : Nat
  flags : Nat
  align : Nat
  file_sz : Nat
  deriving DecidableEq, Repr

/-- Function `elf_map`: the `int64_t` result and the context.  With a zero size no remote
call is made and the page start of `addr` is returned. -/
def elf_map (ctx : Ctx) (env : Env) (fd : Int) (addr : Nat) (es : ElfSegment) (flags : Nat) :
    Int × Ctx :=
  let size := (es.file_sz + ELF_PAGEOFFSET es.vaddr) % 2 ^ 64
  let off := usub64 es.offset (ELF_PAGEOFFSET es.vaddr)
  let addr := ELF_PAGESTART addr
  let size := ELF_PAGEALIGN size
  if size = 0 then (toLong addr, ctx)
  else
    let prot := if es.flags &&& PF_R ≠ 0 then PROT_READ else 0
    let prot := if es.flags &&& PF_W ≠ 0 then prot ||| PROT_WRITE else prot
    let prot := if es.flags &&& PF_X ≠ 0 then prot ||| PROT_EXEC else prot
    process_create_map ctx env fd off addr size flags prot

/-- What the surroundings answer during one `load_elf`: the result of the local `open`,
the descriptor returned by `process_open_file`, and, for the remote `mmap` issued when
`k` remote `mmap` calls are already logged in the context, the `int` result of
`compel_syscall` and the word it leaves in `sret`. -/
structure LoadEnv where
  open_local : Int
  process_open_file : Int
  compel_syscall : Nat → MmapCall → Int × Nat

/-- The surroundings of the next `process_create_map` of a `load_elf` run. -/
def LoadEnv.at_call (env : LoadEnv) (ctx : Ctx) : Env :=
  ⟨0, true, env.compel_syscall ctx.calls.length⟩

/-- The loop of `load_elf` over the program headers, from the current `load_bias` and
`flags`: the final `load_bias` (all ones after a failed mapping, where the loop is
left) and the context. -/
def load_segments (env : LoadEnv) (fd : Int) : List ElfSegment → Nat → Nat → Ctx → Nat × Ctx
  | [], load_bias, _, ctx => (load_bias, ctx)
  | es :: rest, load_bias, flags, ctx =>
    if es.type ≠ "PT_LOAD" then load_segments env fd rest load_bias flags ctx
    else
      let r := elf_map ctx (env.at_call ctx) fd ((load_bias + es.vaddr) % 2 ^ 64) es flags
      if r.1 = -1 then (ofLong (-1), r.2)
      else
        load_segments env fd rest
          ((load_bias + usub64 (ofLong r.1) (ELF_PAGESTART ((load_bias + es.vaddr) % 2 ^ 64)))
            % 2 ^ 64)
          (flags ||| MAP_FIXED) r.2

/-- The outcome of `load_elf`: the `int64_t` result, the context, and the descriptors
handed to `process_close_file`, in order. -/
structure LoadResult where
  ret : Int
  ctx : Ctx
  closed : List Int
  deriving DecidableEq, Repr

/-- Function `load_elf` on the segment list of the patch. -/
def load_elf (ctx : Ctx) (env : LoadEnv) (segs : List ElfSegment) (hint : Nat) : LoadResult :=
  let load_bias := hint &&& 0xfffffffff0000000
  let flags := MAP_PRIVATE
  if env.open_local < 0 then ⟨-1, ctx, []⟩
  else if env.process_open_file < 0 then ⟨-1, ctx, []⟩
  else
    let r := load_segments env env.process_open_file segs load_bias flags ctx
    ⟨toLong r.1, r.2, [env.process_open_file]⟩

/-- Specification side: the size requested for a segment,
`round_up(file_sz + page_offset(vaddr), 4096)`. -/
def seg_size (s : ElfSegment) : Nat := round_up (s.file_sz + s.vaddr % 4096) 4096

/-- Specification side: the protection derived from the segment flags. -/
def seg_prot (s : ElfSegment) : Nat :=
  (if s.flags &&& PF_R ≠ 0 then PROT_READ else 0) |||
  (if s.flags &&& PF_W ≠ 0 then PROT_WRITE else 0) |||
  (if s.flags &&& PF_X ≠ 0 then PROT_EXEC else 0)

/-- Specification side: `page_start(a)`, the address rounded down to a page boundary. -/
def page_start (a : Nat) : Nat := a / 4096 * 4096

/-- Specification side: the remote `mmap` request prescribed for segment `s` under load
bias `b` with mapping flags `flags` on descriptor `fd`. -/
def seg_call (fd : Int) (b flags : Nat) (s : ElfSegment) : MmapCall :=
  ⟨page_start ((b + s.vaddr) % 2 ^ 64), seg_size s, seg_prot s, flags, fd,
    usub64 s.offset (s.vaddr % 4096)⟩

/-- Scenario S6, first segment: PT_LOAD at `vaddr 0x0000`, size 0x1000, R X. -/
def s6_text : ElfSegment := ⟨"PT_LOAD", 0, 0, 0, 0x1000, 5, 0x1000, 0x1000⟩

/-- Scenario S6, second segment: PT_LOAD at `vaddr 0x1000`, size 0x1000, R W. -/
def s6_data : ElfSegment := ⟨"PT_LOAD", 0x1000, 0x1000, 0x1000, 0x1000, 6, 0x1000, 0x1000⟩

/-- A data segment with a zero-filled tail: 0x1000 bytes in the file, 0x2000 in memory. -/
def bss_seg : ElfSegment := ⟨"PT_LOAD", 0, 0, 0, 0x2000, 6, 0x1000, 0x1000⟩

/-- A PT_LOAD header with `file_sz = 0` and a page-aligned `vaddr`. -/
def empty_seg : ElfSegment := ⟨"PT_LOAD", 0, 0, 0, 0x1000, 6, 0x1000, 0⟩

/-- Surroundings in which both opens give descriptor 3 and every remote `mmap`
succeeds, at the address it was asked for when that lies below `2^63`. -/
def env_exact : LoadEnv := ⟨3, 3, fun _ c => (0, c.addr % 2 ^ 63)⟩

/-- Surroundings in which both opens give descriptor 3 and the kernel places the first
(floating) remote `mmap` at 0x7f0000400000, every later one where it was asked for. -/
def env_float : LoadEnv :=
  ⟨3, 3, fun k c => if k = 0 then (0, 0x7f0000400000) else (0, c.addr)⟩

/-- Specification side: the segment is a PT_LOAD segment. -/
def is_load (s : ElfSegment) : Bool := decide (s.type = "PT_LOAD")

/-- Specification side: the segment is one `load_elf` issues a remote `mmap` for, a
PT_LOAD segment whose rounded size is not zero. -/
def is_mapped (s : ElfSegment) : Bool := decide (s.type = "PT_LOAD") && decide (seg_size s ≠ 0)

/-- Specification side: size, protection, file offset and descriptor of a request. -/
def call_shape (c : MmapCall) : Nat × Nat × Nat × Int := (c.size, c.prot, c.offset, c.fd)

/-- Specification side: size, protection, file offset and descriptor prescribed for a
segment. -/
def seg_shape (fd : Int) (s : ElfSegment) : Nat × Nat × Nat × Int :=
  (seg_size s, seg_prot s, usub64 s.offset (s.vaddr % 4096), fd)

/-- Surroundings in which both opens give descriptor 3, the remote `mmap` issued second
fails with `-ENOMEM`, and every other one succeeds where it was asked for. -/
def env_fail_second : LoadEnv :=
  ⟨3, 3, fun k c => if k = 1 then (0, ofLong (-ENOMEM)) else (0, c.addr)⟩

/-! ## Parsing of `/proc/<pid>/maps` (`vma.c`: `collect_vmas`) -/

def MAP_SHARED : Nat := 1

/-- Modelled from the spec: `isspace` of the C library (not part of the sources): space,
and the control characters 9 to 13. -/
def isspace (c : Char) : Bool := c.toNat = 32 || (9 ≤ c.toNat && c.toNat ≤ 13)

/-- Modelled from the spec: the effect of white space in a `sscanf` format, which skips
any amount of white space in the input, newlines included. -/
def skip_spaces : List Char → List Char
  | [] => []
  | c :: cs => if isspace c then skip_spaces cs else c :: cs

/-- Value of a digit in the given base, for the digits `0-9`, `a-f`, `A-F`. -/
def digit_val (base : Nat) (c : Char) : Option Nat :=
  let n := c.toNat
  let v := if 48 ≤ n ∧ n ≤ 57 then n - 48
    else if 97 ≤ n ∧ n ≤ 102 then n - 87
    else if 65 ≤ n ∧ n ≤ 70 then n - 55
    else base
  if v < base then some v else none

/-- The digits at the head of the input, accumulated onto `acc`, and the rest. -/
def scan_digits (base : Nat) : List Char → Nat → Nat × List Char
  | [], acc => (acc, [])
  | c :: cs, acc =>
    match digit_val base c with
    | some v => scan_digits base cs (acc * base + v)
    | none => (acc, c :: cs)

/-- Modelled from the spec: a numeric conversion of `sscanf` (`%lx`, `%x` with base 16,
`%lu` with base 10) on unsigned input without prefix: white space is skipped, at least
one digit is required. -/
def scan_number (base : Nat) (cs : List Char) : Option (Nat × List Char) :=
  match skip_spaces cs with
  | [] => none
  | c :: rest =>
    match digit_val base c with
    | some _ => some (scan_digits base (c :: rest) 0)
    | none => none

/-- Modelled from the spec: the conversion `%c` of `sscanf`: the next character,
whatever it is. -/
def scan_char : List Char → Option (Char × List Char)
  | [] => none
  | c :: cs => some (c, cs)

/-- Modelled from the spec: an ordinary character in a `sscanf` format, which has to be
the next character of the input. -/
def scan_lit (l : Char) : List Char → Option (List Char)
  | [] => none
  | c :: cs => if c = l then some cs else none

/-- What `sscanf` stores for one line when all ten conversions succeed. -/
structure MapsFields where
  start : Nat
  end_ : Nat
  r : Char
  w : Char
  x : Char
  s : Char
  pgoff : Nat
  dev_maj : Nat
  dev_min : Nat
  ino : Nat
  path_off : Nat
  deriving DecidableEq, Repr

/-- The call `sscanf(buf, "%lx-%lx %c%c%c%c %lx %x:%x %lu %n", ...)` of `collect_vmas`;
`none` stands for a result other than 10.  The white space before `%n` is a directive
of its own: `path_off` is the number of characters consumed after it. -/
def sscanf_maps (buf : List Char) : Option MapsFields := do
  let (start, cs) ← scan_number 16 buf
  let cs ← scan_lit '-' cs
  let (end_, cs) ← scan_number 16 cs
  let cs := skip_spaces cs
  let (r, cs) ← scan_char cs
  let (w, cs) ← scan_char cs
  let (x, cs) ← scan_char cs
  let (s, cs) ← scan_char cs
  let cs := skip_spaces cs
  let (pgoff, cs) ← scan_number 16 cs
  let cs := skip_spaces cs
  let (dev_maj, cs) ← scan_number 16 cs
  let cs ← scan_lit ':' cs
  let (dev_min, cs) ← scan_number 16 cs
  let cs := skip_spaces cs
  let (ino, cs) ← scan_number 10 cs
  let cs := skip_spaces cs
  pure ⟨start, end_, r, w, x, s, pgoff, dev_maj, dev_min, ino, buf.length - cs.length⟩

/-- What the body of the `while` loop of `collect_vmas` does with one line. -/
inductive LineOutcome where
  | parse_error
  | out_of_bounds (index : Nat)
  | unexpected_flag
  | added (vma : VmaArea)
  deriving DecidableEq, Repr

/-- The body of the `while (fgets(...))` loop of `collect_vmas` for the line `buf`
(allocation failures apart).  The duplicated path has `strlen(path) + 1` bytes; the
store `path[strlen(path) - 1] = 0` uses an index computed in `size_t`, and is reported
as `out_of_bounds` when it falls outside those bytes. -/
def collect_vmas_line (buf : List Char) : LineOutcome :=
  match sscanf_maps buf with
  | none => LineOutcome.parse_error
  | some f =>
    let path := buf.drop f.path_off
    let index := usub64 path.length 1
    if path.length < index then LineOutcome.out_of_bounds index
    else
      let path := path.take index
      let prot := 0
      let prot := if f.r = 'r' then prot ||| PROT_READ else prot
      let prot := if f.w = 'w' then prot ||| PROT_WRITE else prot
      let prot := if f.x = 'x' then prot ||| PROT_EXEC else prot
      if f.s = 's' then
        LineOutcome.added ⟨f.start, f.end_, prot, MAP_SHARED, f.pgoff, String.mk path⟩
      else if f.s = 'p' then
        LineOutcome.added ⟨f.start, f.end_, prot, MAP_PRIVATE, f.pgoff, String.mk path⟩
      else LineOutcome.unexpected_flag

/-- The line of an anonymous mapping,
`7f0000000000-7f0000001000 rw-p 00000000 00:00 0 ` followed by a newline. -/
def anon_line : List Char :=
  "7f0000000000-7f0000001000 rw-p 00000000 00:00 0 ".toList ++ [Char.ofNat 10]

/-- The line of a file mapping, with the path `/usr/lib/liba.so`, followed by a newline. -/
def file_line : List Char :=
  "7f0000000000-7f0000001000 r-xp 00000000 08:01 1234                       /usr/lib/liba.so".toList
    ++ [Char.ofNat 10]

/-! ## Allocations from one place (specification side) -/

/-- Specification side: the remote `mmap` behaves like `mmap`: when it succeeds, the
region it has mapped is not empty and lies below `2^63`. -/
def mmap_sane (env : Env) : Prop :=
  ∀ c, 0 ≤ (env.compel_syscall c).1 → 0 ≤ toLong (env.compel_syscall c).2 →
    c.size ≠ 0 ∧ (env.compel_syscall c).2 % 2 ^ 64 + c.size < 2 ^ 63

/-- Surroundings whose remote `mmap` fails for an empty region or one that does not lie
below `2^63`, and otherwise succeeds at the requested address. -/
def env_sane : Env :=
  ⟨0, true, fun c => if c.size = 0 ∨ 2 ^ 63 ≤ c.addr + c.size then (-1, 0) else (0, c.addr)⟩

/-- Specification side: the remote `mmap` behaves like `mmap` on an empty request: a
call of length 0 never succeeds. -/
def mmap_rejects_empty (env : Env) : Prop :=
  ∀ c, c.size = 0 → ¬ (0 ≤ (env.compel_syscall c).1 ∧ 0 ≤ toLong (env.compel_syscall c).2)

/-! ## Lemmas on machine arithmetic -/

theorem usub64_low32 (tgt cur n : Nat) :
    usub64 (usub64 tgt cur) n % 2 ^ 32 = (((tgt : Int) - cur - n) % 2 ^ 32).toNat := by
  unfold usub64
  omega

theorem le32_recompose (w : Nat) (hw : w < 2 ^ 32) :
    w / 256 ^ 0 % 256 + 256 * (w / 256 ^ 1 % 256) + 256 ^ 2 * (w / 256 ^ 2 % 256)
      + 256 ^ 3 * (w / 256 ^ 3 % 256) = w := by
  norm_num
  omega

theorem store32_byte (buf : Buf) (v i : Nat) (hi : i < 4) :
    store32 buf 1 v (1 + i) = (v % 2 ^ 32) / 256 ^ i % 256 := by
  unfold store32
  have h : 1 ≤ 1 + i ∧ 1 + i < 1 + 4 := by omega
  simp only [h, and_self, if_true, Nat.add_sub_cancel_left]

theorem decode_store32 (buf : Buf) (v : Nat) :
    decode_rel32 (store32 buf 1 v) =
      if v % 2 ^ 32 < 2 ^ 31 then ((v % 2 ^ 32 : Nat) : Int) else ((v % 2 ^ 32 : Nat) : Int) - 2 ^ 32 := by
  have h1 := store32_byte buf v 0 (by omega)
  have h2 := store32_byte buf v 1 (by omega)
  have h3 := store32_byte buf v 2 (by omega)
  have h4 := store32_byte buf v 3 (by omega)
  have hr := le32_recompose (v % 2 ^ 32) (Nat.mod_lt _ (by norm_num))
  simp only [Nat.add_zero] at h1
  have e2 : (1 : Nat) + 1 = 2 := rfl
  have e3 : (1 : Nat) + 2 = 3 := rfl
  have e4 : (1 : Nat) + 3 = 4 := rfl
  rw [e2] at h2
  rw [e3] at h3
  rw [e4] at h4
  unfold decode_rel32
  simp only [h1, h2, h3, h4]
  simp only [pow_zero, Nat.div_one, pow_one] at hr ⊢
  rw [hr]

/-- The 5-byte forms of `ip_change_relative`: result, opcode byte, displacement bytes. -/
theorem ip_change_relative_rel32 (buf : Buf) (opcode cur tgt : Nat) (hop : opcode < 256) :
    (ip_change_relative buf opcode cur tgt 5).1 = 5 ∧
    (ip_change_relative buf opcode cur tgt 5).2 0 = opcode ∧
    (∀ i, i < 4 →
      (ip_change_relative buf opcode cur tgt 5).2 (1 + i) = le32_byte ((tgt : Int) - cur - 5) i) ∧
    decode_rel32 (ip_change_relative buf opcode cur tgt 5).2 =
      toInt32 ((tgt : Int) - cur - 5) := by
  have hlow := usub64_low32 tgt cur 5
  refine ⟨?_, ?_, ?_, ?_⟩
  · show toInt32 ((5 : Nat) : Int) = 5
    decide
  · simp [ip_change_relative, store32, store8, Nat.mod_eq_of_lt hop]
  · intro i hi
    show store32 _ 1 _ (1 + i) = _
    rw [store32_byte _ _ _ hi, hlow]
    rfl
  · show decode_rel32 (store32 _ 1 _) = _
    rw [decode_store32, hlow]
    unfold toInt32
    split <;> split <;> omega

theorem toInt32_of_range (d : Int) (h1 : -(2 ^ 31) ≤ d) (h2 : d < 2 ^ 31) : toInt32 d = d := by
  unfold toInt32
  split <;> omega

theorem toInt32_ne_of_range (d : Int) (h : d < -(2 ^ 31) ∨ 2 ^ 31 ≤ d) : toInt32 d ≠ d := by
  unfold toInt32
  split <;> omega

/-! ## Claims on the instruction synthesizer -/

/-- C1: for CALL and JMPQ `x86_create_instruction` returns 5, writes the opcode
(0xE8 or 0xE9) to `buf[0]` and the little-endian 32-bit two's-complement encoding of
`tgt - cur - 5` to `buf[1..4]`; when that displacement fits a signed 32-bit integer,
decoding `buf[1..4]` gives it back exactly. -/
theorem x86_create_instruction_rel32 (buf : Buf) (type : ObjType) (cur tgt : Nat)
    (hk : type = ObjType.CALL ∨ type = ObjType.JMPQ) :
    (x86_create_instruction buf type cur tgt).1 = 5 ∧
    (x86_create_instruction buf type cur tgt).2 0 = (if type = ObjType.CALL then 0xE8 else 0xE9) ∧
    (∀ i, i < 4 →
      (x86_create_instruction buf type cur tgt).2 (1 + i) = le32_byte ((tgt : Int) - cur - 5) i) ∧
    (-(2 ^ 31) ≤ (tgt : Int) - cur - 5 → (tgt : Int) - cur - 5 < 2 ^ 31 →
      decode_rel32 (x86_create_instruction buf type cur tgt).2 = (tgt : Int) - cur - 5) := by
  rcases hk with rfl | rfl
  · obtain ⟨h1, h2, h3, h4⟩ := ip_change_relative_rel32 buf X64_CALLQ cur tgt (by decide)
    refine ⟨h1, h2, h3, fun hlo hhi => ?_⟩
    show decode_rel32 (ip_change_relative buf X64_CALLQ cur tgt 5).2 = _
    rw [h4, toInt32_of_range _ hlo hhi]
  · obtain ⟨h1, h2, h3, h4⟩ := ip_change_relative_rel32 buf X64_JMPQ cur tgt (by decide)
    refine ⟨h1, h2, h3, fun hlo hhi => ?_⟩
    show decode_rel32 (ip_change_relative buf X64_JMPQ cur tgt 5).2 = _
    rw [h4, toInt32_of_range _ hlo hhi]

/-- Witness of C1 (scenario S2): JMPQ from 0x7f0000001234 to 0x7f0000010000 yields the
bytes E9 C7 ED 00 00 and decodes to 0xEDC7. -/
theorem x86_create_instruction_rel32_witness :
    (x86_create_instruction (fun _ => 0) ObjType.JMPQ 0x7f0000001234 0x7f0000010000).1 = 5 ∧
    (x86_create_instruction (fun _ => 0) ObjType.JMPQ 0x7f0000001234 0x7f0000010000).2 0 = 0xE9 ∧
    (x86_create_instruction (fun _ => 0) ObjType.JMPQ 0x7f0000001234 0x7f0000010000).2 1 = 0xC7 ∧
    (x86_create_instruction (fun _ => 0) ObjType.JMPQ 0x7f0000001234 0x7f0000010000).2 2 = 0xED ∧
    (x86_create_instruction (fun _ => 0) ObjType.JMPQ 0x7f0000001234 0x7f0000010000).2 3 = 0 ∧
    (x86_create_instruction (fun _ => 0) ObjType.JMPQ 0x7f0000001234 0x7f0000010000).2 4 = 0 ∧
    decode_rel32 (x86_create_instruction (fun _ => 0) ObjType.JMPQ 0x7f0000001234 0x7f0000010000).2
      = 0xEDC7 := by
  obtain ⟨h1, h2, h3, h4⟩ :=
    x86_create_instruction_rel32 (fun _ => 0) ObjType.JMPQ 0x7f0000001234 0x7f0000010000 (Or.inr rfl)
  refine ⟨h1, h2, ?_, ?_, ?_, ?_, ?_⟩
  · rw [h3 0 (by decide)]; decide
  · rw [h3 1 (by decide)]; decide
  · rw [h3 2 (by decide)]; decide
  · rw [h3 3 (by decide)]; decide
  · rw [h4 (by norm_num) (by norm_num)]; norm_num

/-- C2, counterexample (scenario S1): from 0x7f0000001234 to 0x7f1000002000 the
displacement is far outside the signed 32-bit range, yet the JMPQ encoder reports no
error: it returns the length 5. -/
theorem x86_create_instruction_refuses_counterexample :
    (2 : Int) ^ 31 ≤ |(0x7f1000002000 : Int) - 0x7f0000001234 - 5| ∧
    (x86_create_instruction (fun _ => 0) ObjType.JMPQ 0x7f0000001234 0x7f1000002000).1 = 5 ∧
    ¬ (x86_create_instruction (fun _ => 0) ObjType.JMPQ 0x7f0000001234 0x7f1000002000).1 < 0 := by
  refine ⟨by norm_num, by decide, by decide⟩

/-- C2, amended: `x86_create_instruction` makes no range check.  When `tgt - cur - 5`
does not fit a signed 32-bit integer, CALL and JMPQ still return 5, write the opcode
(0xE8 or 0xE9) to `buf[0]` and the low 32 bits of the displacement to `buf[1..4]`; the
stored displacement then decodes to the truncation of `tgt - cur - 5`, which differs
from `tgt - cur - 5`. -/
theorem x86_create_instruction_out_of_range (buf : Buf) (type : ObjType) (cur tgt : Nat)
    (hk : type = ObjType.CALL ∨ type = ObjType.JMPQ)
    (hr : (tgt : Int) - cur - 5 < -(2 ^ 31) ∨ 2 ^ 31 ≤ (tgt : Int) - cur - 5) :
    (x86_create_instruction buf type cur tgt).1 = 5 ∧
    (x86_create_instruction buf type cur tgt).2 0 = (if type = ObjType.CALL then 0xE8 else 0xE9) ∧
    (∀ i, i < 4 →
      (x86_create_instruction buf type cur tgt).2 (1 + i) = le32_byte ((tgt : Int) - cur - 5) i) ∧
    decode_rel32 (x86_create_instruction buf type cur tgt).2 = toInt32 ((tgt : Int) - cur - 5) ∧
    decode_rel32 (x86_create_instruction buf type cur tgt).2 ≠ (tgt : Int) - cur - 5 := by
  rcases hk with rfl | rfl
  · obtain ⟨h1, h2, h3, h4⟩ := ip_change_relative_rel32 buf X64_CALLQ cur tgt (by decide)
    refine ⟨h1, h2, h3, h4, ?_⟩
    show decode_rel32 (ip_change_relative buf X64_CALLQ cur tgt 5).2 ≠ _
    rw [h4]
    exact toInt32_ne_of_range _ hr
  · obtain ⟨h1, h2, h3, h4⟩ := ip_change_relative_rel32 buf X64_JMPQ cur tgt (by decide)
    refine ⟨h1, h2, h3, h4, ?_⟩
    show decode_rel32 (ip_change_relative buf X64_JMPQ cur tgt 5).2 ≠ _
    rw [h4]
    exact toInt32_ne_of_range _ hr

/-- Witness of the amended C2 at scenario S1: the encoder returns 5 and leaves the bytes
E9 C7 0D 00 00, the opcode followed by the truncated displacement 0xDC7 instead of
0x1000000DC7. -/
theorem x86_create_instruction_out_of_range_witness :
    (x86_create_instruction (fun _ => 0) ObjType.JMPQ 0x7f0000001234 0x7f1000002000).1 = 5 ∧
    (x86_create_instruction (fun _ => 0) ObjType.JMPQ 0x7f0000001234 0x7f1000002000).2 0 = 0xE9 ∧
    (x86_create_instruction (fun _ => 0) ObjType.JMPQ 0x7f0000001234 0x7f1000002000).2 1 = 0xC7 ∧
    (x86_create_instruction (fun _ => 0) ObjType.JMPQ 0x7f0000001234 0x7f1000002000).2 2 = 0x0D ∧
    (x86_create_instruction (fun _ => 0) ObjType.JMPQ 0x7f0000001234 0x7f1000002000).2 3 = 0 ∧
    (x86_create_instruction (fun _ => 0) ObjType.JMPQ 0x7f0000001234 0x7f1000002000).2 4 = 0 ∧
    decode_rel32 (x86_create_instruction (fun _ => 0) ObjType.JMPQ 0x7f0000001234 0x7f1000002000).2
      = 0xDC7 ∧
    decode_rel32 (x86_create_instruction (fun _ => 0) ObjType.JMPQ 0x7f0000001234 0x7f1000002000).2
      ≠ (0x7f1000002000 : Int) - 0x7f0000001234 - 5 := by
  obtain ⟨h1, h0, h2, h3, h4⟩ :=
    x86_create_instruction_out_of_range (fun _ => 0) ObjType.JMPQ 0x7f0000001234 0x7f1000002000
      (Or.inr rfl) (Or.inr (by norm_num))
  refine ⟨h1, h0, ?_, ?_, ?_, ?_, ?_, h4⟩
  · rw [h2 0 (by decide)]; decide
  · rw [h2 1 (by decide)]; decide
  · rw [h2 2 (by decide)]; decide
  · rw [h2 3 (by decide)]; decide
  · rw [h3]; decide

/-! ## Lemmas on the place allocator -/

theorem and_hi_mask (x : Nat) :
    x &&& 0xffffffff00000000 = (x / 2 ^ 32 % 2 ^ 32) * 2 ^ 32 := by
  have hM : (0xffffffff00000000 : Nat) = (2 ^ 32 - 1) <<< 32 := by decide
  rw [hM, ← Nat.shiftLeft_eq, ← Nat.shiftRight_eq_div_pow]
  apply Nat.eq_of_testBit_eq
  intro i
  simp only [Nat.testBit_and, Nat.testBit_shiftLeft, Nat.testBit_two_pow_sub_one,
    Nat.testBit_mod_two_pow, Nat.testBit_shiftRight]
  by_cases h : 32 ≤ i
  · have e : 32 + (i - 32) = i := by omega
    simp [h, e, Bool.and_comm]
  · simp [h]

/-- The mask comparison of `find_place` is the comparison of the upper 32 bits. -/
theorem hi_mask_eq_iff (x y : Nat) (hx : x < 2 ^ 64) (hy : y < 2 ^ 64) :
    (x &&& 0xffffffff00000000 = y &&& 0xffffffff00000000) ↔ x >>> 32 = y >>> 32 := by
  rw [and_hi_mask, and_hi_mask, Nat.shiftRight_eq_div_pow, Nat.shiftRight_eq_div_pow]
  omega

theorem find_place_first (pre post : List PatchPlace) (p : PatchPlace) (hint : Nat)
    (hhint : hint < 2 ^ 64) (hty : ∀ q ∈ pre ++ p :: post, q.start < 2 ^ 64)
    (hpre : ∀ q ∈ pre, q.start >>> 32 ≠ hint >>> 32) (hp : p.start >>> 32 = hint >>> 32) :
    find_place (pre ++ p :: post) hint = some pre.length := by
  induction pre with
  | nil =>
    have hps : p.start < 2 ^ 64 := hty p (by simp)
    simp [find_place, (hi_mask_eq_iff p.start hint hps hhint).2 hp]
  | cons q qs ih =>
    have hqs : q.start < 2 ^ 64 := hty q (by simp)
    have hq : ¬ (q.start &&& 0xffffffff00000000 = hint &&& 0xffffffff00000000) := fun h =>
      hpre q (by simp) ((hi_mask_eq_iff q.start hint hqs hhint).1 h)
    have ih' := ih (fun r hr => hty r (by simp at hr ⊢; tauto)) (fun r hr => hpre r (by simp [hr]))
    show find_place (q :: (qs ++ p :: post)) hint = some (qs.length + 1)
    simp only [find_place, hq, if_false, ih', Option.map_some']

theorem find_place_none (places : List PatchPlace) (hint : Nat)
    (hhint : hint < 2 ^ 64) (hty : ∀ q ∈ places, q.start < 2 ^ 64)
    (hno : ∀ q ∈ places, q.start >>> 32 ≠ hint >>> 32) :
    find_place places hint = none := by
  induction places with
  | nil => rfl
  | cons q qs ih =>
    have hqs : q.start < 2 ^ 64 := hty q (by simp)
    have hq : ¬ (q.start &&& 0xffffffff00000000 = hint &&& 0xffffffff00000000) := fun h =>
      hno q (by simp) ((hi_mask_eq_iff q.start hint hqs hhint).1 h)
    have ih' := ih (fun r hr => hty r (by simp [hr])) (fun r hr => hno r (by simp [hr]))
    simp only [find_place, hq, if_false, ih', Option.map_none']

theorem getElem?_mid (pre post : List PatchPlace) (p : PatchPlace) :
    (pre ++ p :: post)[pre.length]? = some p := by
  induction pre with
  | nil => simp
  | cons q qs ih => simpa using ih

theorem set_mid (pre post : List PatchPlace) (p q : PatchPlace) :
    (pre ++ p :: post).set pre.length q = pre ++ q :: post := by
  induction pre with
  | nil => rfl
  | cons r rs ih => simp

theorem toLong_of_lt (x : Nat) (h : x < 2 ^ 63) : toLong x = (x : Int) := by
  unfold toLong
  have e : x % 2 ^ 64 = x := Nat.mod_eq_of_lt (by omega)
  rw [e, if_pos h]

/-! ## Claims on the place allocator: reuse and exhaustion -/

/-- C5: place reuse.  When the first place `p` whose start shares the upper 32 bits of
`hint` has `p.size - p.used ≥ round_up(size, 16)`, `process_get_place` returns
`p.start + round_up(p.used, 16)`, sets `p.used` to `p.used + round_up(size, 16)`, and
changes nothing else: no place is added, every other place is unchanged and no remote
syscall is issued.  The fields are 64-bit words and the returned address is a
non-negative `long`. -/
theorem process_get_place_reuse (ctx : Ctx) (env : Env) (hint size : Nat)
    (pre post : List PatchPlace) (p : PatchPlace)
    (hplaces : ctx.places = pre ++ p :: post)
    (hhint : hint < 2 ^ 64)
    (hty : ∀ q ∈ ctx.places, q.start < 2 ^ 64 ∧ q.size < 2 ^ 64 ∧ q.used < 2 ^ 64)
    (hpre : ∀ q ∈ pre, q.start >>> 32 ≠ hint >>> 32)
    (hp : p.start >>> 32 = hint >>> 32)
    (hroom : round_up size 16 ≤ p.size - p.used)
    (haddr : p.start + round_up p.used 16 < 2 ^ 63) :
    process_get_place ctx env hint size =
      (some ((p.start + round_up p.used 16 : Nat) : Int),
        { ctx with places := pre ++ { p with used := p.used + round_up size 16 } :: post }) := by
  have hfind : find_place ctx.places hint = some pre.length := by
    rw [hplaces]
    exact find_place_first pre post p hint hhint (fun q hq => (hty q (hplaces ▸ hq)).1) hpre hp
  have hget : ctx.places[pre.length]? = some p := by
    rw [hplaces]
    exact getElem?_mid pre post p
  obtain ⟨_, hsz, hus⟩ := hty p (by rw [hplaces]; simp)
  have hnot : ¬ usub64 p.size p.used < round_up size 16 := by
    unfold usub64
    omega
  have hused : (p.used + round_up size 16) % 2 ^ 64 = p.used + round_up size 16 := by
    have hr : round_up size 16 < 2 ^ 64 := Nat.mod_lt _ (by norm_num)
    omega
  unfold process_get_place
  simp only [hfind, hget, hnot, if_false, place_alloc, toLong_of_lt _ haddr, hused]
  rw [hplaces, set_mid]

/-- Witness of C5 (scenario S4): with one place at P = 0x7f0000001000 of one page that
has 64 bytes in use, `get_place(0x7f0000000100, 64)` returns P + 64 and leaves 128 bytes
in use. -/
theorem process_get_place_reuse_witness :
    process_get_place ⟨[], [⟨0x7f0000001000, 4096, 64⟩], []⟩ ⟨0, true, fun _ => (0, 0)⟩
        0x7f0000000100 64 =
      (some ((0x7f0000001000 + 64 : Nat) : Int), ⟨[], [⟨0x7f0000001000, 4096, 128⟩], []⟩) :=
  process_get_place_reuse ⟨[], [⟨0x7f0000001000, 4096, 64⟩], []⟩ ⟨0, true, fun _ => (0, 0)⟩
    0x7f0000000100 64 [] [] ⟨0x7f0000001000, 4096, 64⟩ rfl (by norm_num)
    (by simp) (by simp) (by decide) (by decide) (by decide)

theorem find_vma_hole_mem (vmas : List VmaArea) (hs hint size : Nat) :
    find_vma_hole vmas hs hint size = 0 ∨ ∃ v ∈ vmas, find_vma_hole vmas hs hint size = v.end_ := by
  induction vmas with
  | nil => left; rfl
  | cons v rest ih =>
    cases rest with
    | nil =>
      unfold find_vma_hole
      split
      · right; exact ⟨v, by simp, rfl⟩
      · left; rfl
    | cons w rest2 =>
      unfold find_vma_hole
      split
      · right; exact ⟨v, by simp, rfl⟩
      · rcases ih with h | ⟨u, hu, h⟩
        · left; exact h
        · right; exact ⟨u, List.mem_cons_of_mem _ hu, h⟩

theorem process_create_map_cases (ctx : Ctx) (env : Env) (fd : Int)
    (offset addr size flags prot : Nat) :
    (process_create_map ctx env fd offset addr size flags prot).2 =
        { ctx with calls := ctx.calls ++ [⟨addr, size, prot, flags, fd, offset⟩] } ∧
    ((process_create_map ctx env fd offset addr size flags prot).1 = -1 ∨
      (0 ≤ (process_create_map ctx env fd offset addr size flags prot).1 ∧
        (process_create_map ctx env fd offset addr size flags prot).1 < 2 ^ 63)) := by
  unfold process_create_map
  simp only []
  split
  · exact ⟨rfl, Or.inl rfl⟩
  · split
    · exact ⟨rfl, Or.inl rfl⟩
    · refine ⟨rfl, Or.inr ⟨by omega, ?_⟩⟩
      show toLong _ < 2 ^ 63
      unfold toLong
      split <;> omega

/-- What `process_create_place` can do: either it records nothing and assigns no place,
or it returns 0 after appending a fresh place that starts at the end of some VMA. -/
theorem process_create_place_cases (ctx : Ctx) (env : Env) (hint size : Nat) :
    (process_create_place ctx env hint size).2.1.vmas = ctx.vmas ∧
    (((process_create_place ctx env hint size).2.2 = none ∧
        (process_create_place ctx env hint size).2.1.places = ctx.places) ∨
      ((process_create_place ctx env hint size).1 = 0 ∧
        (process_create_place ctx env hint size).2.2 = some ctx.places.length ∧
        ∃ v ∈ ctx.vmas, (process_create_place ctx env hint size).2.1.places =
          ctx.places ++ [⟨v.end_, round_up size PAGE_SIZE, 0⟩])) := by
  have hmap := process_create_map_cases ctx env (-1) 0
    (process_find_hole ctx env hint (round_up size PAGE_SIZE)) (round_up size PAGE_SIZE)
    (MAP_ANONYMOUS ||| MAP_PRIVATE) (PROT_READ ||| PROT_WRITE ||| PROT_EXEC)
  obtain ⟨hctx, hret⟩ := hmap
  unfold process_create_place
  simp only [Nat.not_lt_zero, if_false]
  split
  · exact ⟨rfl, Or.inl ⟨rfl, rfl⟩⟩
  · generalize process_create_map ctx env (-1) 0
      (process_find_hole ctx env hint (round_up size PAGE_SIZE)) (round_up size PAGE_SIZE)
      (MAP_ANONYMOUS ||| MAP_PRIVATE) (PROT_READ ||| PROT_WRITE ||| PROT_EXEC) = r at hctx hret ⊢
    split
    · exact ⟨by rw [hctx], Or.inl ⟨rfl, by rw [hctx]⟩⟩
    · rename_i hne
      split
      · exact ⟨by rw [hctx], Or.inl ⟨rfl, by rw [hctx]⟩⟩
      · rename_i heq
        have heq' : ofLong r.1 = process_find_hole ctx env hint (round_up size PAGE_SIZE) :=
          not_not.mp heq
        have hlt : ofLong r.1 < 2 ^ 63 := by
          rcases hret with h | ⟨h0, h1⟩
          · exact absurd h hne
          · unfold ofLong
            omega
        have hENOENT : ofLong (-ENOENT) = 2 ^ 64 - 2 := by decide
        have hhole : ∃ v ∈ ctx.vmas,
            process_find_hole ctx env hint (round_up size PAGE_SIZE) = v.end_ := by
          rw [heq'] at hlt
          unfold process_find_hole at hlt ⊢
          simp only [] at hlt ⊢
          split at hlt
          · rename_i hnz
            rcases find_vma_hole_mem ctx.vmas env.head_start hint (round_up size PAGE_SIZE) with
              h | ⟨v, hv, h⟩
            · exact absurd h hnz
            · exact ⟨v, hv, by rw [if_pos hnz]; exact h⟩
          · rw [hENOENT] at hlt
            omega
        obtain ⟨v, hv, hve⟩ := hhole
        refine ⟨by simp only [hctx], Or.inr ⟨rfl, by simp only [hctx], v, hv, ?_⟩⟩
        simp only [hctx, hve]

theorem place_alloc_ok (ctx : Ctx) (i : Option Nat) (sz : Nat) (hinv : PlacesOk ctx.places)
    (hroom : ∀ j place, i = some j → ctx.places[j]? = some place →
      place.used + sz ≤ place.size) :
    (place_alloc ctx i sz).2.vmas = ctx.vmas ∧ PlacesOk (place_alloc ctx i sz).2.places := by
  unfold place_alloc
  cases i with
  | none => exact ⟨rfl, hinv⟩
  | some j =>
    simp only []
    cases hget : ctx.places[j]? with
    | none => exact ⟨rfl, hinv⟩
    | some place =>
      refine ⟨rfl, ?_⟩
      intro q hq
      have hmem : place ∈ ctx.places := List.getElem?_mem hget
      obtain ⟨h1, h2, h3, h4⟩ := hinv place hmem
      have hr := hroom j place rfl hget
      rcases List.mem_or_eq_of_mem_set hq with h | h
      · exact hinv q h
      · subst h
        refine ⟨?_, h2, h3, h4⟩
        show (place.used + sz) % 2 ^ 64 ≤ place.size
        omega

theorem round_up_page_aligned (sz : Nat) :
    round_up sz PAGE_SIZE < 2 ^ 64 ∧ round_up sz PAGE_SIZE % PAGE_SIZE = 0 := by
  unfold round_up PAGE_SIZE
  omega

/-! ## Claims on which the code departs from the specification -/

theorem find_vma_hole_s3_page (head_start hint : Nat) :
    find_vma_hole s3_vmas head_start hint (round_up (round_up 64 16) PAGE_SIZE) = 0x1000 := by
  have e : round_up (round_up 64 16) PAGE_SIZE = 4096 := by decide
  have g : usub64 0x4000 0x1000 > 4096 := by decide
  simp only [e, s3_vmas, find_vma_hole, g, if_true]

theorem place_alloc_calls (ctx : Ctx) (i : Option Nat) (sz : Nat) :
    (place_alloc ctx i sz).2.calls = ctx.calls := by
  unfold place_alloc
  split
  · rfl
  · split <;> rfl

/-- When no place matches and `xmalloc` succeeds, `process_get_place` issues exactly one
remote `mmap`: anonymous, private, R|W|X, at the address `process_find_hole` gave. -/
theorem process_get_place_new_calls (ctx : Ctx) (env : Env) (hint size : Nat)
    (hnone : find_place ctx.places hint = none) (hok : env.xmalloc_ok = true) :
    (process_get_place ctx env hint size).2.calls =
      ctx.calls ++ [⟨process_find_hole ctx env hint (round_up (round_up size 16) PAGE_SIZE),
        round_up (round_up size 16) PAGE_SIZE, 7, 0x22, -1, 0⟩] := by
  have hmap := (process_create_map_cases ctx env (-1) 0
    (process_find_hole ctx env hint (round_up (round_up size 16) PAGE_SIZE))
    (round_up (round_up size 16) PAGE_SIZE)
    (MAP_ANONYMOUS ||| MAP_PRIVATE) (PROT_READ ||| PROT_WRITE ||| PROT_EXEC)).1
  have e1 : MAP_ANONYMOUS ||| MAP_PRIVATE = 0x22 := by decide
  have e2 : PROT_READ ||| PROT_WRITE ||| PROT_EXEC = 7 := by decide
  rw [e1, e2] at hmap
  unfold process_get_place
  simp only [hnone]
  unfold process_create_place
  simp only [Nat.not_lt_zero, if_false, hok, not_true_eq_false, e1, e2]
  generalize process_create_map ctx env (-1) 0
    (process_find_hole ctx env hint (round_up (round_up size 16) PAGE_SIZE))
    (round_up (round_up size 16) PAGE_SIZE) 0x22 7 = r at hmap ⊢
  split
  · split
    · simp only [hmap]
    · rw [place_alloc_calls]; simp only [hmap]
  · split
    · split
      · simp only [hmap]
      · rw [place_alloc_calls]; simp only [hmap]
    · split
      · simp only [hmap]
      · rw [place_alloc_calls]; simp only [hmap]

/-- The word read past the last VMA matters to `process_get_place` only through the
result of `find_vma_hole`. -/
theorem process_get_place_head_start (ctx : Ctx) (hs hs' : Nat) (ok : Bool)
    (sys : MmapCall → Int × Nat) (hint size : Nat)
    (h : find_vma_hole ctx.vmas hs hint (round_up (round_up size 16) PAGE_SIZE) =
      find_vma_hole ctx.vmas hs' hint (round_up (round_up size 16) PAGE_SIZE)) :
    process_get_place ctx ⟨hs, ok, sys⟩ hint size = process_get_place ctx ⟨hs', ok, sys⟩ hint size := by
  simp only [process_get_place, process_create_place, process_find_hole, process_create_map, h]

/-- C3: on the S3 inventory a request of 0x2000 bytes is answered with 0x1000, but for a
request of 0x4000 bytes the gap `[0x5000, 0x9000)` of exactly 0x4000 bytes is passed over
(the comparison is strict): whatever word is read past the last VMA, the result is
0xA000 or 0, never 0x5000. -/
theorem find_vma_hole_exact_gap_skipped (head_start hint : Nat) :
    find_vma_hole s3_vmas head_start hint 0x2000 = 0x1000 ∧
    find_vma_hole s3_vmas head_start hint 0x4000 ≠ 0x5000 ∧
    (find_vma_hole s3_vmas head_start hint 0x4000 = 0xA000 ∨
      find_vma_hole s3_vmas head_start hint 0x4000 = 0) := by
  have g1 : usub64 0x4000 0x1000 > 0x2000 := by decide
  have g2 : ¬ usub64 0x4000 0x1000 > 0x4000 := by decide
  have g3 : ¬ usub64 0x9000 0x5000 > 0x4000 := by decide
  have h1 : find_vma_hole s3_vmas head_start hint 0x2000 = 0x1000 := by
    simp only [s3_vmas, find_vma_hole, g1, if_true]
  have h2 : find_vma_hole s3_vmas head_start hint 0x4000 =
      if usub64 head_start 0xA000 > 0x4000 then 0xA000 else 0 := by
    simp only [s3_vmas, find_vma_hole, g2, g3, if_false]
  refine ⟨h1, ?_, ?_⟩
  · rw [h2]; split <;> decide
  · rw [h2]; split
    · left; rfl
    · right; rfl

/-- C4: with no place yet, the S3 inventory and a remote `mmap` that returns the address
it was asked for, `get_place(hint = 0x7f0000000000, size = 64)` succeeds with the address
0x1000, whose upper 32 bits are 0 and not 0x7f: the hole is taken without regard to the
hint. -/
theorem process_get_place_new_place_unreachable (head_start : Nat) :
    process_get_place ⟨s3_vmas, [], []⟩ ⟨head_start, true, fun c => (0, c.addr)⟩
        0x7f0000000000 64 =
      (some 0x1000, ⟨s3_vmas, [⟨0x1000, 4096, 64⟩], [⟨0x1000, 4096, 7, 0x22, -1, 0⟩]⟩) ∧
    (0x1000 : Nat) >>> 32 = 0 ∧ (0x7f0000000000 : Nat) >>> 32 = 0x7f00 := by
  refine ⟨?_, by decide, by decide⟩
  rw [process_get_place_head_start _ head_start 0 _ _ _ _
    ((find_vma_hole_s3_page head_start _).trans (find_vma_hole_s3_page 0 _).symm)]
  decide

/-- C8: with no place yet and the S3 inventory the place is requested at 0x1000.  When the
remote `mmap` succeeds at 0x7f0000002000 instead, `process_get_place` returns the positive
value 0x2000 (the low 32 bits of the address), not a negative error; when it succeeds at
0x7f0000000000, whose low 32 bits are zero, `process_get_place` does not return at all: it
goes on to dereference the null `place`.  No place is recorded in either case. -/
theorem process_get_place_map_mismatch_result (head_start : Nat) :
    process_get_place ⟨s3_vmas, [], []⟩ ⟨head_start, true, fun _ => (0, 0x7f0000002000)⟩
        0x7f0000000000 64 =
      (some 0x2000, ⟨s3_vmas, [], [⟨0x1000, 4096, 7, 0x22, -1, 0⟩]⟩) ∧
    process_get_place ⟨s3_vmas, [], []⟩ ⟨head_start, true, fun _ => (0, 0x7f0000000000)⟩
        0x7f0000000000 64 =
      (none, ⟨s3_vmas, [], [⟨0x1000, 4096, 7, 0x22, -1, 0⟩]⟩) := by
  refine ⟨?_, ?_⟩
  · rw [process_get_place_head_start _ head_start 0 _ _ _ _
      ((find_vma_hole_s3_page head_start _).trans (find_vma_hole_s3_page 0 _).symm)]
    decide
  · rw [process_get_place_head_start _ head_start 0 _ _ _ _
      ((find_vma_hole_s3_page head_start _).trans (find_vma_hole_s3_page 0 _).symm)]
    decide

/-- C9: with an empty inventory `find_vma_hole` yields zero, and still
`process_get_place` issues a remote `mmap`, at the address `(unsigned long)-ENOENT =
0xfffffffffffffffe`, whatever the surroundings answer; when that `mmap` fails the result
is -1, not `-EFAULT = -14`. -/
theorem process_get_place_no_hole_still_maps (head_start hint : Nat)
    (sys : MmapCall → Int × Nat) :
    find_vma_hole [] head_start hint 4096 = 0 ∧
    (process_get_place ⟨[], [], []⟩ ⟨head_start, true, sys⟩ 0x7f0000000000 64).2.calls =
      [⟨0xfffffffffffffffe, 4096, 7, 0x22, -1, 0⟩] ∧
    process_get_place ⟨[], [], []⟩ ⟨head_start, true, fun _ => (0, ofLong (-ENOMEM))⟩
        0x7f0000000000 64 =
      (some (-1), ⟨[], [], [⟨0xfffffffffffffffe, 4096, 7, 0x22, -1, 0⟩]⟩) := by
  refine ⟨rfl, ?_, ?_⟩
  · exact process_get_place_new_calls ⟨[], [], []⟩ ⟨head_start, true, sys⟩ 0x7f0000000000 64
      rfl rfl
  · rw [process_get_place_head_start ⟨[], [], []⟩ head_start 0 true _ 0x7f0000000000 64 rfl]
    decide

/-- C10: the end address of a VMA is treated as part of it.  For adjacent VMAs
`u = [0x1000, 0x2000)` and `v = [0x2000, 0x3000)` the address 0x2000 is resolved to `u`,
not to `v`; and with `u` followed by a gap, 0x2000 is resolved to `u`, not to none. -/
theorem find_vma_by_addr_end_inclusive :
    find_vma_by_addr [⟨0x1000, 0x2000, 0, 0, 0, ""⟩, ⟨0x2000, 0x3000, 0, 0, 0, ""⟩] 0x2000 =
      some ⟨0x1000, 0x2000, 0, 0, 0, ""⟩ ∧
    find_vma_by_addr [⟨0x1000, 0x2000, 0, 0, 0, ""⟩, ⟨0x5000, 0x6000, 0, 0, 0, ""⟩] 0x2000 =
      some ⟨0x1000, 0x2000, 0, 0, 0, ""⟩ := by
  refine ⟨rfl, rfl⟩

/-! ## Claims on the short jump and on victim control -/

/-- C17: for JMP the encoder returns 2 and puts 0xEB in `buf[0]` and the low 8 bits of
`tgt - cur - 2` in `buf[1]`, but it does not leave the rest of the buffer alone: the
displacement is stored through an `unsigned int` pointer, so `buf[2]`, `buf[3]` and
`buf[4]` receive bits 8..31 of `tgt - cur - 2`.  With a buffer of 0x90 bytes, a jump
from 0x1000 to 0x1010 leaves EB 0E 00 00 00, and a jump from 0x1010 back to 0x1000
leaves EB EE FF FF FF. -/
theorem x86_create_instruction_jmp_clobbers (buf : Buf) (cur tgt : Nat) :
    (x86_create_instruction buf ObjType.JMP cur tgt).1 = 2 ∧
    (x86_create_instruction buf ObjType.JMP cur tgt).2 0 = 0xEB ∧
    (x86_create_instruction buf ObjType.JMP cur tgt).2 1 = (((tgt : Int) - cur - 2) % 2 ^ 8).toNat ∧
    (∀ i, i < 4 →
      (x86_create_instruction buf ObjType.JMP cur tgt).2 (1 + i) = le32_byte ((tgt : Int) - cur - 2) i) ∧
    (x86_create_instruction (fun _ => 0x90) ObjType.JMP 0x1000 0x1010).2 2 = 0 ∧
    (x86_create_instruction (fun _ => 0x90) ObjType.JMP 0x1010 0x1000).2 2 = 0xFF ∧
    (x86_create_instruction (fun _ => 0x90) ObjType.JMP 0x1010 0x1000).2 4 = 0xFF ∧
    (x86_create_instruction (fun _ => 0x90) ObjType.JMP 0x1010 0x1000).2 5 = 0x90 := by
  have hlow := usub64_low32 tgt cur 2
  have hbytes : ∀ i, i < 4 →
      (x86_create_instruction buf ObjType.JMP cur tgt).2 (1 + i) =
        le32_byte ((tgt : Int) - cur - 2) i := by
    intro i hi
    show store32 _ 1 _ (1 + i) = _
    rw [store32_byte _ _ _ hi, hlow]
    rfl
  refine ⟨?_, ?_, ?_, hbytes, by decide, by decide, by decide, by decide⟩
  · show toInt32 ((2 : Nat) : Int) = 2
    decide
  · simp [x86_create_instruction, ip_change_relative, store32, store8, X64_JMP]
  · have h := hbytes 0 (by decide)
    rw [h]
    unfold le32_byte
    have hnn : (0 : Int) ≤ ((tgt : Int) - cur - 2) % 2 ^ 32 := Int.emod_nonneg _ (by norm_num)
    omega

/-- C16: when `compel_stop_task` succeeds and `compel_prepare` returns no control handle,
`process_infect` returns -1 without calling `compel_resume_task`: the victim stays
stopped.  The sibling failure, a failing `collect_vmas`, does go through `process_cure`
(resume, then -1), and success returns 0 without resuming. -/
theorem process_infect_prepare_failure_no_cure (vm rs : Int) :
    process_infect ⟨TASK_ALIVE, false, vm, rs⟩ =
      (-1, [TracerCall.compel_stop_task, TracerCall.compel_prepare]) ∧
    TracerCall.compel_resume_task ∉ (process_infect ⟨TASK_ALIVE, false, vm, rs⟩).2 ∧
    process_infect ⟨TASK_ALIVE, true, -1, rs⟩ =
      (-1, [TracerCall.compel_stop_task, TracerCall.compel_prepare, TracerCall.collect_vmas,
        TracerCall.compel_resume_task]) ∧
    process_infect ⟨TASK_ALIVE, true, 0, rs⟩ =
      (0, [TracerCall.compel_stop_task, TracerCall.compel_prepare, TracerCall.collect_vmas,
        TracerCall.print_vmas]) := by
  have h1 : process_infect ⟨TASK_ALIVE, false, vm, rs⟩ =
      (-1, [TracerCall.compel_stop_task, TracerCall.compel_prepare]) := by
    simp [process_infect]
  refine ⟨h1, ?_, ?_, ?_⟩
  · rw [h1]; decide
  · unfold process_infect process_cure
    by_cases h : rs = 0 <;> simp [h]
  · simp [process_infect]

/-! ## Lemmas on the ELF loader -/

theorem and_page_mask (x : Nat) (hx : x < 2 ^ 64) :
    x &&& 0xfffffffffffff000 = x / 4096 * 4096 := by
  have hM : (0xfffffffffffff000 : Nat) = (2 ^ 52 - 1) <<< 12 := by decide
  have hR : x / 4096 * 4096 = (x >>> 12 % 2 ^ 52) <<< 12 := by
    rw [Nat.shiftLeft_eq, Nat.shiftRight_eq_div_pow]
    have : x / 2 ^ 12 % 2 ^ 52 = x / 4096 := by omega
    rw [this]
  rw [hM, hR]
  apply Nat.eq_of_testBit_eq
  intro i
  simp only [Nat.testBit_and, Nat.testBit_shiftLeft, Nat.testBit_two_pow_sub_one,
    Nat.testBit_mod_two_pow, Nat.testBit_shiftRight]
  by_cases h : 12 ≤ i
  · have e : 12 + (i - 12) = i := by omega
    simp [h, e, Bool.and_comm]
  · simp [h]

theorem ELF_PAGEOFFSET_eq (v : Nat) : ELF_PAGEOFFSET v = v % 4096 := by
  unfold ELF_PAGEOFFSET
  exact Nat.and_pow_two_sub_one_eq_mod v 12

theorem ELF_PAGESTART_eq (v : Nat) (hv : v < 2 ^ 64) : ELF_PAGESTART v = page_start v := by
  unfold ELF_PAGESTART page_start
  exact and_page_mask v hv

theorem ELF_PAGEALIGN_eq (x : Nat) : ELF_PAGEALIGN (x % 2 ^ 64) = round_up x 4096 := by
  unfold ELF_PAGEALIGN round_up
  rw [and_page_mask _ (Nat.mod_lt _ (by norm_num))]
  omega

theorem elf_prot_eq (es : ElfSegment) :
    (if es.flags &&& PF_X ≠ 0 then
        (if es.flags &&& PF_W ≠ 0 then (if es.flags &&& PF_R ≠ 0 then PROT_READ else 0) ||| PROT_WRITE
          else (if es.flags &&& PF_R ≠ 0 then PROT_READ else 0)) ||| PROT_EXEC
      else
        (if es.flags &&& PF_W ≠ 0 then (if es.flags &&& PF_R ≠ 0 then PROT_READ else 0) ||| PROT_WRITE
          else (if es.flags &&& PF_R ≠ 0 then PROT_READ else 0))) = seg_prot es := by
  unfold seg_prot
  split_ifs <;> decide

theorem seg_prot_bits (es : ElfSegment) :
    seg_prot es &&& (PROT_READ ||| PROT_WRITE ||| PROT_EXEC) = seg_prot es := by
  unfold seg_prot
  split_ifs <;> decide

/-- The request of `elf_map`, in the words of the specification. -/
theorem elf_map_eq (ctx : Ctx) (env : Env) (fd : Int) (addr : Nat) (es : ElfSegment)
    (flags : Nat) (haddr : addr < 2 ^ 64) :
    elf_map ctx env fd addr es flags =
      if seg_size es = 0 then (toLong (page_start addr), ctx)
      else process_create_map ctx env fd (usub64 es.offset (es.vaddr % 4096)) (page_start addr)
        (seg_size es) flags (seg_prot es) := by
  unfold elf_map
  simp only [ELF_PAGEOFFSET_eq, ELF_PAGEALIGN_eq, ELF_PAGESTART_eq addr haddr, elf_prot_eq]
  rfl

theorem page_start_le (a : Nat) : page_start a ≤ a := by
  unfold page_start
  omega

theorem ofLong_toLong (w : Nat) : ofLong (toLong w) = w % 2 ^ 64 := by
  unfold ofLong toLong
  split <;> omega

theorem toLong_page_start_ne (a : Nat) : toLong (page_start a) ≠ -1 := by
  unfold toLong page_start
  split <;> omega

theorem usub64_self (a : Nat) : usub64 a a = 0 := by
  unfold usub64
  omega

/-- One round of the loop of `load_elf`, in the words of the specification: a header
that is not PT_LOAD is skipped; a PT_LOAD header of size zero issues nothing, keeps the
bias and sets MAP_FIXED; otherwise one remote `mmap` is issued, and the loop is left
with an all-ones bias when it fails. -/
theorem load_segments_step (env : LoadEnv) (fd : Int) (es : ElfSegment) (rest : List ElfSegment)
    (b flags : Nat) (ctx : Ctx) (hb : b < 2 ^ 64) :
    load_segments env fd (es :: rest) b flags ctx =
      if es.type ≠ "PT_LOAD" then load_segments env fd rest b flags ctx
      else if seg_size es = 0 then load_segments env fd rest b (flags ||| MAP_FIXED) ctx
      else if (env.compel_syscall ctx.calls.length (seg_call fd b flags es)).1 < 0 ∨
          toLong (env.compel_syscall ctx.calls.length (seg_call fd b flags es)).2 < 0 then
        (2 ^ 64 - 1, { ctx with calls := ctx.calls ++ [seg_call fd b flags es] })
      else
        load_segments env fd rest
          ((b + usub64 ((env.compel_syscall ctx.calls.length (seg_call fd b flags es)).2 % 2 ^ 64)
            (page_start ((b + es.vaddr) % 2 ^ 64))) % 2 ^ 64)
          (flags ||| MAP_FIXED)
          { ctx with calls := ctx.calls ++ [seg_call fd b flags es] } := by
  have hlt : (b + es.vaddr) % 2 ^ 64 < 2 ^ 64 := Nat.mod_lt _ (by norm_num)
  have hps : page_start ((b + es.vaddr) % 2 ^ 64) < 2 ^ 64 :=
    lt_of_le_of_lt (page_start_le _) hlt
  rw [load_segments]
  by_cases ht : es.type ≠ "PT_LOAD"
  · rw [if_pos ht, if_pos ht]
  · rw [if_neg ht, if_neg ht, elf_map_eq _ _ _ _ _ _ hlt, ELF_PAGESTART_eq _ hlt]
    by_cases hz : seg_size es = 0
    · rw [if_pos hz, if_pos hz]
      simp only [toLong_page_start_ne, if_false, ofLong_toLong,
        Nat.mod_eq_of_lt hps, usub64_self, Nat.add_zero, Nat.mod_eq_of_lt hb]
    · rw [if_neg hz, if_neg hz]
      unfold process_create_map LoadEnv.at_call seg_call
      simp only []
      generalize env.compel_syscall ctx.calls.length
        ⟨page_start ((b + es.vaddr) % 2 ^ 64), seg_size es, seg_prot es, flags, fd,
          usub64 es.offset (es.vaddr % 4096)⟩ = ans
      have hE : ofLong (-1) = 2 ^ 64 - 1 := by decide
      by_cases h1 : ans.1 < 0
      · rw [if_pos h1, if_pos (Or.inl h1), if_pos rfl, hE]
      · rw [if_neg h1]
        by_cases h2 : toLong ans.2 < 0
        · rw [if_pos h2, if_pos (Or.inr h2), if_pos rfl, hE]
        · have hne : ¬ toLong ans.2 = -1 := by omega
          have hor : ¬ (ans.1 < 0 ∨ toLong ans.2 < 0) := by tauto
          rw [if_neg h2, if_neg hor]
          simp only [hne, if_false, ofLong_toLong]

theorem load_segments_calls_prefix (env : LoadEnv) (fd : Int) (segs : List ElfSegment) :
    ∀ (b flags : Nat) (ctx : Ctx), b < 2 ^ 64 →
      ∃ tail, (load_segments env fd segs b flags ctx).2.calls = ctx.calls ++ tail := by
  induction segs with
  | nil => intro b flags ctx _; exact ⟨[], by simp [load_segments]⟩
  | cons es rest ih =>
    intro b flags ctx hb
    rw [load_segments_step env fd es rest b flags ctx hb]
    split
    · exact ih b flags ctx hb
    · split
      · exact ih b _ ctx hb
      · split
        · exact ⟨_, rfl⟩
        · obtain ⟨tail, h⟩ := ih _ (flags ||| MAP_FIXED)
            { ctx with calls := ctx.calls ++ [seg_call fd b flags es] }
            (Nat.mod_lt _ (by norm_num))
          exact ⟨seg_call fd b flags es :: tail, by rw [h]; simp⟩

/-- What the loop does with a PT_LOAD header of non-zero size: the next logged call is
the request for that header. -/
theorem load_segments_first_call (env : LoadEnv) (fd : Int) (es : ElfSegment)
    (rest : List ElfSegment) (b flags : Nat) (ctx : Ctx) (hb : b < 2 ^ 64)
    (ht : es.type = "PT_LOAD") (hsz : seg_size es ≠ 0) :
    ∃ tail, (load_segments env fd (es :: rest) b flags ctx).2.calls =
      ctx.calls ++ seg_call fd b flags es :: tail := by
  rw [load_segments_step env fd es rest b flags ctx hb, if_neg (not_not.mpr ht), if_neg hsz]
  split
  · exact ⟨[], rfl⟩
  · obtain ⟨tail, h⟩ := load_segments_calls_prefix env fd rest _ (flags ||| MAP_FIXED)
      { ctx with calls := ctx.calls ++ [seg_call fd b flags es] } (Nat.mod_lt _ (by norm_num))
    exact ⟨tail, by rw [h]; simp⟩

theorem load_segments_skip (env : LoadEnv) (fd : Int) (pre rest : List ElfSegment)
    (b flags : Nat) (ctx : Ctx) (hpre : ∀ s ∈ pre, s.type ≠ "PT_LOAD") :
    load_segments env fd (pre ++ rest) b flags ctx = load_segments env fd rest b flags ctx := by
  induction pre with
  | nil => rfl
  | cons s ss ih =>
    have hs : s.type ≠ "PT_LOAD" := hpre s (by simp)
    show load_segments env fd (s :: (ss ++ rest)) b flags ctx = _
    rw [load_segments, if_pos hs]
    exact ih (fun t ht => hpre t (by simp [ht]))

theorem and_bias_mask (x : Nat) :
    x &&& 0xfffffffff0000000 = (x / 2 ^ 28 % 2 ^ 36) * 2 ^ 28 := by
  have hM : (0xfffffffff0000000 : Nat) = (2 ^ 36 - 1) <<< 28 := by decide
  rw [hM, ← Nat.shiftLeft_eq, ← Nat.shiftRight_eq_div_pow]
  apply Nat.eq_of_testBit_eq
  intro i
  simp only [Nat.testBit_and, Nat.testBit_shiftLeft, Nat.testBit_two_pow_sub_one,
    Nat.testBit_mod_two_pow, Nat.testBit_shiftRight]
  by_cases h : 28 ≤ i
  · have e : 28 + (i - 28) = i := by omega
    simp [h, e, Bool.and_comm]
  · simp [h]

/-! ## Claims on the ELF loader: one request -/

/-- C11: when the loop of `load_elf` reaches, with load bias `b`, a PT_LOAD segment `s`
that it maps (one whose rounded size is not zero), the remote `mmap` it issues has
`addr = page_start(b + s.vaddr)`, `size = round_up(s.file_sz + page_offset(s.vaddr), 4096)`,
file offset `s.offset - page_offset(s.vaddr)` (a 64-bit unsigned difference, the plain
one when `page_offset(s.vaddr) ≤ s.offset`), and `prot` made of PROT_READ, PROT_WRITE,
PROT_EXEC according to PF_R, PF_W, PF_X and of no other bit. -/
theorem load_segments_request (env : LoadEnv) (fd : Int) (s : ElfSegment)
    (rest : List ElfSegment) (b flags : Nat) (ctx : Ctx)
    (hb : b + s.vaddr < 2 ^ 64) (ht : s.type = "PT_LOAD") (hsz : seg_size s ≠ 0) :
    (∃ tail, (load_segments env fd (s :: rest) b flags ctx).2.calls =
      ctx.calls ++ ⟨page_start (b + s.vaddr), seg_size s, seg_prot s, flags, fd,
        usub64 s.offset (s.vaddr % 4096)⟩ :: tail) ∧
    seg_prot s &&& (PROT_READ ||| PROT_WRITE ||| PROT_EXEC) = seg_prot s ∧
    (s.vaddr % 4096 ≤ s.offset → s.offset < 2 ^ 64 →
      usub64 s.offset (s.vaddr % 4096) = s.offset - s.vaddr % 4096) := by
  refine ⟨?_, seg_prot_bits s, ?_⟩
  · have h := load_segments_first_call env fd s rest b flags ctx (by omega) ht hsz
    unfold seg_call at h
    rw [Nat.mod_eq_of_lt hb] at h
    exact h
  · intro h1 h2
    unfold usub64
    omega

/-- Witness of C11: the first segment of scenario S6 under bias 0x7f0000000000 is
requested at 0x7f0000000000 with size 0x1000, protection R|X = 5 and file offset 0. -/
theorem load_segments_request_witness :
    (∃ tail, (load_segments env_exact 3 [s6_text, s6_data] 0x7f0000000000 MAP_PRIVATE
        ⟨[], [], []⟩).2.calls =
      [] ++ (⟨0x7f0000000000, 0x1000, 5, 2, 3, 0⟩ : MmapCall) :: tail) ∧
    seg_prot s6_text &&& (PROT_READ ||| PROT_WRITE ||| PROT_EXEC) = seg_prot s6_text ∧
    (s6_text.vaddr % 4096 ≤ s6_text.offset → s6_text.offset < 2 ^ 64 →
      usub64 s6_text.offset (s6_text.vaddr % 4096) = s6_text.offset - s6_text.vaddr % 4096) :=
  load_segments_request env_exact 3 s6_text [s6_data] 0x7f0000000000 MAP_PRIVATE ⟨[], [], []⟩
    (by decide) (by decide) (by decide)

/-- C14, counterexample: with no PT_LOAD segment and `hint = 0x7f0012345678`, `load_elf`
returns 0x7f0010000000, which is not `hint` with its low 32 bits cleared
(0x7f0000000000). -/
theorem load_elf_initial_bias_counterexample :
    (load_elf ⟨[], [], []⟩ env_exact [] 0x7f0012345678).ret = 0x7f0010000000 ∧
    ((0x7f0012345678 &&& 0xffffffff00000000 : Nat) : Int) = 0x7f0000000000 ∧
    (load_elf ⟨[], [], []⟩ env_exact [] 0x7f0012345678).ret ≠
      ((0x7f0012345678 &&& 0xffffffff00000000 : Nat) : Int) := by
  refine ⟨by decide, by decide, by decide⟩

/-- C14, amended: `load_elf` starts from `load_bias = hint & 0xfffffffff0000000`, that is
`hint` with its low 28 bits cleared (a 256 MiB-aligned floor).  When both opens succeed
and the segment list has no PT_LOAD segment, it returns exactly that value; and the
address requested for a first PT_LOAD segment `s` (of non-zero rounded size) is
`page_start((hint & 0xfffffffff0000000) + s.vaddr)`, with flags MAP_PRIVATE. -/
theorem load_elf_initial_bias (ctx : Ctx) (env : LoadEnv) (hint : Nat) (pre : List ElfSegment)
    (hopen1 : 0 ≤ env.open_local) (hopen2 : 0 ≤ env.process_open_file)
    (hpre : ∀ s ∈ pre, s.type ≠ "PT_LOAD") :
    (load_elf ctx env pre hint).ret = toLong (hint &&& 0xfffffffff0000000) ∧
    (hint < 2 ^ 63 → (load_elf ctx env pre hint).ret = ((hint / 2 ^ 28 * 2 ^ 28 : Nat) : Int)) ∧
    ∀ (s : ElfSegment) (rest : List ElfSegment), s.type = "PT_LOAD" → seg_size s ≠ 0 →
      ∃ tail, (load_elf ctx env (pre ++ s :: rest) hint).ctx.calls =
        ctx.calls ++ ⟨page_start (((hint &&& 0xfffffffff0000000) + s.vaddr) % 2 ^ 64),
          seg_size s, seg_prot s, MAP_PRIVATE, env.process_open_file,
          usub64 s.offset (s.vaddr % 4096)⟩ :: tail := by
  have hb0 : hint &&& 0xfffffffff0000000 < 2 ^ 64 :=
    lt_of_le_of_lt Nat.and_le_right (by norm_num)
  have h1 : ¬ env.open_local < 0 := by omega
  have h2 : ¬ env.process_open_file < 0 := by omega
  have hret : (load_elf ctx env pre hint).ret = toLong (hint &&& 0xfffffffff0000000) := by
    have hskip := load_segments_skip env env.process_open_file pre []
      (hint &&& 0xfffffffff0000000) MAP_PRIVATE ctx hpre
    rw [List.append_nil] at hskip
    unfold load_elf
    simp only [h1, h2, if_false, hskip, load_segments]
  refine ⟨hret, ?_, ?_⟩
  · intro hhint
    have hmask : hint &&& 0xfffffffff0000000 = hint / 2 ^ 28 * 2 ^ 28 := by
      rw [and_bias_mask]
      omega
    rw [hret, hmask]
    exact toLong_of_lt _ (by omega)
  · intro s rest ht hsz
    have hskip := load_segments_skip env env.process_open_file pre (s :: rest)
      (hint &&& 0xfffffffff0000000) MAP_PRIVATE ctx hpre
    obtain ⟨tail, h⟩ := load_segments_first_call env env.process_open_file s rest
      (hint &&& 0xfffffffff0000000) MAP_PRIVATE ctx hb0 ht hsz
    refine ⟨tail, ?_⟩
    unfold load_elf
    simp only [h1, h2, if_false, hskip, h]
    rfl

/-- Witness of the amended C14: for `hint = 0x7f0012345678` the bias is 0x7f0010000000,
returned as it is when there is nothing to load, and the first segment of scenario S6 is
requested at 0x7f0010000000. -/
theorem load_elf_initial_bias_witness :
    (0x7f0012345678 &&& 0xfffffffff0000000 : Nat) = 0x7f0010000000 ∧
    (load_elf ⟨[], [], []⟩ env_exact [] 0x7f0012345678).ret = 0x7f0010000000 ∧
    ∃ tail, (load_elf ⟨[], [], []⟩ env_exact ([] ++ s6_text :: [s6_data]) 0x7f0012345678).ctx.calls =
      [] ++ (⟨0x7f0010000000, 0x1000, 5, 2, 3, 0⟩ : MmapCall) :: tail := by
  obtain ⟨_, h2, h3⟩ := load_elf_initial_bias ⟨[], [], []⟩ env_exact 0x7f0012345678 []
    (by decide) (by decide) (by simp)
  obtain ⟨tail, ht⟩ := h3 s6_text [s6_data] (by decide) (by decide)
  exact ⟨by decide, h2 (by norm_num), tail, ht⟩

/-! ## Claims on the ELF loader: coverage -/

/-- C15, counterexample: a PT_LOAD segment at `vaddr 0` with `file_sz = 0x1000` and
`mem_sz = 0x2000`, loaded under bias 0x7f0000000000, is requested as
`[0x7f0000000000, 0x7f0000001000)`: the second page of its memory image is outside the
requested region. -/
theorem load_segments_memory_image_counterexample :
    (load_segments env_exact 3 [bss_seg] 0x7f0000000000 MAP_PRIVATE ⟨[], [], []⟩).2.calls =
      [⟨0x7f0000000000, 0x1000, 3, 2, 3, 0⟩] ∧
    ¬ (0x7f0000000000 + bss_seg.vaddr + bss_seg.mem_sz ≤
        page_start (0x7f0000000000 + bss_seg.vaddr) + seg_size bss_seg) := by
  refine ⟨by decide, by decide⟩

/-- C15, amended: for every PT_LOAD segment `s` that the loop of `load_elf` maps under a
page-aligned load bias `b`, the requested region
`[page_start(b + s.vaddr), page_start(b + s.vaddr) + size)` contains the whole file image
`[b + s.vaddr, b + s.vaddr + s.file_sz)` of the segment, with the protection derived
from `s.flags`; it contains the whole memory image whenever `s.mem_sz ≤ s.file_sz`. -/
theorem load_segments_covers_file_image (env : LoadEnv) (fd : Int) (s : ElfSegment)
    (rest : List ElfSegment) (b flags : Nat) (ctx : Ctx)
    (hal : b % 4096 = 0) (hfit : b + s.vaddr + s.file_sz < 2 ^ 64)
    (ht : s.type = "PT_LOAD") (hsz : seg_size s ≠ 0) :
    ∃ c tail, (load_segments env fd (s :: rest) b flags ctx).2.calls = ctx.calls ++ c :: tail ∧
      c.addr = page_start (b + s.vaddr) ∧ c.size = seg_size s ∧ c.prot = seg_prot s ∧
      c.addr ≤ b + s.vaddr ∧ b + s.vaddr + s.file_sz ≤ c.addr + c.size ∧
      (s.mem_sz ≤ s.file_sz → b + s.vaddr + s.mem_sz ≤ c.addr + c.size) := by
  obtain ⟨tail, h⟩ := load_segments_first_call env fd s rest b flags ctx (by omega) ht hsz
  have hb : (b + s.vaddr) % 2 ^ 64 = b + s.vaddr := Nat.mod_eq_of_lt (by omega)
  have hcov : page_start (b + s.vaddr) ≤ b + s.vaddr ∧
      b + s.vaddr + s.file_sz ≤ page_start (b + s.vaddr) + seg_size s := by
    unfold seg_size round_up at hsz ⊢
    unfold page_start
    omega
  refine ⟨seg_call fd b flags s, tail, h, ?_, rfl, rfl, ?_, ?_, ?_⟩
  · show page_start ((b + s.vaddr) % 2 ^ 64) = _
    rw [hb]
  · show page_start ((b + s.vaddr) % 2 ^ 64) ≤ _
    rw [hb]; exact hcov.1
  · show _ ≤ page_start ((b + s.vaddr) % 2 ^ 64) + seg_size s
    rw [hb]; exact hcov.2
  · intro hm
    show _ ≤ page_start ((b + s.vaddr) % 2 ^ 64) + seg_size s
    rw [hb]
    have := hcov.2
    omega

/-- Witness of the amended C15: the second segment of scenario S6 under bias
0x7f0000000000 is requested as `[0x7f0000001000, 0x7f0000002000)`, which holds its file
image and, `mem_sz` being equal to `file_sz`, its memory image. -/
theorem load_segments_covers_file_image_witness :
    ∃ c tail, (load_segments env_exact 3 [s6_data] 0x7f0000000000 (MAP_PRIVATE ||| MAP_FIXED)
        ⟨[], [], []⟩).2.calls = [] ++ c :: tail ∧
      c.addr = page_start (0x7f0000000000 + s6_data.vaddr) ∧ c.size = seg_size s6_data ∧
      c.prot = seg_prot s6_data ∧
      c.addr ≤ 0x7f0000000000 + s6_data.vaddr ∧
      0x7f0000000000 + s6_data.vaddr + s6_data.file_sz ≤ c.addr + c.size ∧
      (s6_data.mem_sz ≤ s6_data.file_sz →
        0x7f0000000000 + s6_data.vaddr + s6_data.mem_sz ≤ c.addr + c.size) :=
  load_segments_covers_file_image env_exact 3 s6_data [] 0x7f0000000000
    (MAP_PRIVATE ||| MAP_FIXED) ⟨[], [], []⟩ (by decide) (by decide) (by decide) (by decide)

/-! ## Claims on the ELF loader: the sequence of requests -/

theorem or_fixed_idem (flags : Nat) : (flags ||| MAP_FIXED) ||| MAP_FIXED = flags ||| MAP_FIXED := by
  rw [Nat.or_assoc, Nat.or_self]

/-- With every remote `mmap` succeeding, the loop logs one request per mapped segment, in
order; once MAP_FIXED is set every request carries the current flags, and from flags
without MAP_FIXED the first request carries them if the first PT_LOAD segment is
mapped. -/
theorem load_segments_all_ok (env : LoadEnv) (fd : Int)
    (hok : ∀ k c, 0 ≤ (env.compel_syscall k c).1 ∧ 0 ≤ toLong (env.compel_syscall k c).2)
    (segs : List ElfSegment) :
    ∀ (b flags : Nat) (ctx : Ctx), b < 2 ^ 64 →
      ∃ cs, (load_segments env fd segs b flags ctx).2.calls = ctx.calls ++ cs ∧
        cs.map call_shape = (segs.filter is_mapped).map (seg_shape fd) ∧
        (flags ||| MAP_FIXED = flags → ∀ c ∈ cs, c.flags = flags) ∧
        ((∀ s, segs.find? is_load = some s → seg_size s ≠ 0) →
          ∀ i c, cs[i]? = some c → c.flags = if i = 0 then flags else flags ||| MAP_FIXED) := by
  induction segs with
  | nil =>
    intro b flags ctx _
    exact ⟨[], by simp [load_segments], rfl, by simp, by simp⟩
  | cons es rest ih =>
    intro b flags ctx hb
    rw [load_segments_step env fd es rest b flags ctx hb]
    by_cases ht : es.type ≠ "PT_LOAD"
    · rw [if_pos ht]
      have hm : is_mapped es = false := by simp [is_mapped, ht]
      have hl : is_load es = false := by simp [is_load, ht]
      obtain ⟨cs, h1, h2, h3, h4⟩ := ih b flags ctx hb
      refine ⟨cs, h1, ?_, h3, ?_⟩
      · rw [List.filter_cons_of_neg (by simp [hm])]; exact h2
      · intro hfirst
        exact h4 (fun s hs => hfirst s (by rw [List.find?_cons_of_neg _ (by simp [hl])]; exact hs))
    · rw [if_neg ht]
      have ht' : es.type = "PT_LOAD" := not_not.mp ht
      have hl : is_load es = true := by simp [is_load, ht']
      by_cases hz : seg_size es = 0
      · rw [if_pos hz]
        have hm : is_mapped es = false := by simp [is_mapped, hz]
        obtain ⟨cs, h1, h2, h3, _⟩ := ih b (flags ||| MAP_FIXED) ctx hb
        refine ⟨cs, h1, ?_, ?_, ?_⟩
        · rw [List.filter_cons_of_neg (by simp [hm])]; exact h2
        · intro hfix c hc
          rw [h3 (or_fixed_idem flags) c hc, hfix]
        · intro hfirst
          exact absurd hz (hfirst es (by rw [List.find?_cons_of_pos _ hl]))
      · rw [if_neg hz]
        have hm : is_mapped es = true := by simp [is_mapped, ht', hz]
        have hnf : ¬ ((env.compel_syscall ctx.calls.length (seg_call fd b flags es)).1 < 0 ∨
            toLong (env.compel_syscall ctx.calls.length (seg_call fd b flags es)).2 < 0) := by
          have := hok ctx.calls.length (seg_call fd b flags es)
          omega
        rw [if_neg hnf]
        obtain ⟨cs, h1, h2, h3, _⟩ := ih
          ((b + usub64 ((env.compel_syscall ctx.calls.length (seg_call fd b flags es)).2 % 2 ^ 64)
            (page_start ((b + es.vaddr) % 2 ^ 64))) % 2 ^ 64)
          (flags ||| MAP_FIXED)
          { ctx with calls := ctx.calls ++ [seg_call fd b flags es] }
          (Nat.mod_lt _ (by norm_num))
        refine ⟨seg_call fd b flags es :: cs, by rw [h1]; simp, ?_, ?_, ?_⟩
        · rw [List.filter_cons_of_pos hm, List.map_cons, List.map_cons, h2]
          rfl
        · intro hfix c hc
          rcases List.mem_cons.mp hc with h | h
          · rw [h]; rfl
          · rw [h3 (or_fixed_idem flags) c h, hfix]
        · intro _ i c hic
          cases i with
          | zero =>
            simp only [List.getElem?_cons_zero, Option.some.injEq] at hic
            rw [← hic]; rfl
          | succ j =>
            simp only [List.getElem?_cons_succ] at hic
            rw [h3 (or_fixed_idem flags) c (List.getElem?_mem hic)]
            simp

/-- C12, counterexample: with every remote call succeeding, a segment list whose first
PT_LOAD segment has `file_sz = 0` and a page-aligned `vaddr`, followed by the second
segment of scenario S6, makes `load_elf` issue a single remote `mmap` for two PT_LOAD
segments, and this first `mmap` carries MAP_PRIVATE | MAP_FIXED = 0x12. -/
theorem load_elf_mmap_sequence_counterexample :
    (load_elf ⟨[], [], []⟩ env_exact [empty_seg, s6_data] 0x7f0000000000).ctx.calls =
      [⟨0x7f0000001000, 0x1000, 3, 0x12, 3, 0x1000⟩] ∧
    ([empty_seg, s6_data].filter is_load).length = 2 ∧
    ¬ ((load_elf ⟨[], [], []⟩ env_exact [empty_seg, s6_data] 0x7f0000000000).ctx.calls.length =
        ([empty_seg, s6_data].filter is_load).length) ∧
    ¬ (((load_elf ⟨[], [], []⟩ env_exact [empty_seg, s6_data] 0x7f0000000000).ctx.calls.map
        (fun c => c.flags)).head? = some MAP_PRIVATE) := by
  refine ⟨by decide, by decide, by decide, by decide⟩

/-- C12, amended: with both opens and every remote `mmap` succeeding, `load_elf` issues
exactly one remote `mmap` per PT_LOAD segment whose rounded size
`round_up(file_sz + page_offset(vaddr), 4096)` is not zero, and none for any other
segment (another type, or PT_LOAD with `file_sz = 0` and a page-aligned `vaddr`), in
program-header order; when the first PT_LOAD segment has a non-zero rounded size, the
first `mmap` carries flags exactly MAP_PRIVATE and every later one
MAP_PRIVATE | MAP_FIXED. -/
theorem load_elf_mmap_sequence (ctx : Ctx) (env : LoadEnv) (segs : List ElfSegment) (hint : Nat)
    (hopen1 : 0 ≤ env.open_local) (hopen2 : 0 ≤ env.process_open_file)
    (hok : ∀ k c, 0 ≤ (env.compel_syscall k c).1 ∧ 0 ≤ toLong (env.compel_syscall k c).2) :
    ∃ cs, (load_elf ctx env segs hint).ctx.calls = ctx.calls ++ cs ∧
      cs.map call_shape = (segs.filter is_mapped).map (seg_shape env.process_open_file) ∧
      ((∀ s, segs.find? is_load = some s → seg_size s ≠ 0) →
        ∀ i c, cs[i]? = some c →
          c.flags = if i = 0 then MAP_PRIVATE else MAP_PRIVATE ||| MAP_FIXED) := by
  have hb0 : hint &&& 0xfffffffff0000000 < 2 ^ 64 :=
    lt_of_le_of_lt Nat.and_le_right (by norm_num)
  have h1 : ¬ env.open_local < 0 := by omega
  have h2 : ¬ env.process_open_file < 0 := by omega
  obtain ⟨cs, hc, hs, _, hf⟩ := load_segments_all_ok env env.process_open_file hok segs
    (hint &&& 0xfffffffff0000000) MAP_PRIVATE ctx hb0
  refine ⟨cs, ?_, hs, hf⟩
  unfold load_elf
  simp only [h1, h2, if_false]
  exact hc

/-- Witness of the amended C12 (scenario S6): two PT_LOAD segments give two requests,
the first with MAP_PRIVATE = 2, the second with MAP_PRIVATE | MAP_FIXED = 0x12. -/
theorem load_elf_mmap_sequence_witness :
    (load_elf ⟨[], [], []⟩ env_exact [s6_text, s6_data] 0x7f0000000000).ctx.calls =
      [⟨0x7f0000000000, 0x1000, 5, 2, 3, 0⟩, ⟨0x7f0000001000, 0x1000, 3, 0x12, 3, 0x1000⟩] ∧
    ∃ cs, (load_elf ⟨[], [], []⟩ env_exact [s6_text, s6_data] 0x7f0000000000).ctx.calls = [] ++ cs ∧
      cs.map call_shape = ([s6_text, s6_data].filter is_mapped).map (seg_shape 3) ∧
      ((∀ s, [s6_text, s6_data].find? is_load = some s → seg_size s ≠ 0) →
        ∀ i c, cs[i]? = some c →
          c.flags = if i = 0 then MAP_PRIVATE else MAP_PRIVATE ||| MAP_FIXED) :=
  ⟨by decide,
    load_elf_mmap_sequence ⟨[], [], []⟩ env_exact [s6_text, s6_data] 0x7f0000000000
      (by decide) (by decide) (fun _ c => ⟨le_refl _, by
        show 0 ≤ toLong (c.addr % 2 ^ 63)
        unfold toLong
        split <;> omega⟩)⟩

/-! ## Claims on the ELF loader: failure and the final bias -/

/-- The requests logged by the loop belong, in order, to the first mapped segments; a
request that fails is the last one logged and leaves the all-ones bias. -/
theorem load_segments_failure (env : LoadEnv) (fd : Int) (segs : List ElfSegment) :
    ∀ (b flags : Nat) (ctx : Ctx), b < 2 ^ 64 →
      ∃ cs, (load_segments env fd segs b flags ctx).2.calls = ctx.calls ++ cs ∧
        cs.map call_shape = ((segs.filter is_mapped).take cs.length).map (seg_shape fd) ∧
        ∀ i c, cs[i]? = some c →
          ((env.compel_syscall (ctx.calls.length + i) c).1 < 0 ∨
            toLong (env.compel_syscall (ctx.calls.length + i) c).2 < 0) →
          (load_segments env fd segs b flags ctx).1 = 2 ^ 64 - 1 ∧ i + 1 = cs.length := by
  induction segs with
  | nil =>
    intro b flags ctx _
    exact ⟨[], by simp [load_segments], rfl, by simp⟩
  | cons es rest ih =>
    intro b flags ctx hb
    rw [load_segments_step env fd es rest b flags ctx hb]
    by_cases ht : es.type ≠ "PT_LOAD"
    · rw [if_pos ht]
      have hm : is_mapped es = false := by simp [is_mapped, ht]
      obtain ⟨cs, h1, h2, h3⟩ := ih b flags ctx hb
      refine ⟨cs, h1, ?_, h3⟩
      rw [List.filter_cons_of_neg (by simp [hm])]; exact h2
    · rw [if_neg ht]
      have ht' : es.type = "PT_LOAD" := not_not.mp ht
      by_cases hz : seg_size es = 0
      · rw [if_pos hz]
        have hm : is_mapped es = false := by simp [is_mapped, hz]
        obtain ⟨cs, h1, h2, h3⟩ := ih b (flags ||| MAP_FIXED) ctx hb
        refine ⟨cs, h1, ?_, h3⟩
        rw [List.filter_cons_of_neg (by simp [hm])]; exact h2
      · rw [if_neg hz]
        have hm : is_mapped es = true := by simp [is_mapped, ht', hz]
        by_cases hf : (env.compel_syscall ctx.calls.length (seg_call fd b flags es)).1 < 0 ∨
            toLong (env.compel_syscall ctx.calls.length (seg_call fd b flags es)).2 < 0
        · rw [if_pos hf]
          refine ⟨[seg_call fd b flags es], rfl, ?_, ?_⟩
          · rw [List.filter_cons_of_pos hm]
            rfl
          · intro i c hic _
            cases i with
            | zero => exact ⟨rfl, rfl⟩
            | succ j => simp at hic
        · rw [if_neg hf]
          obtain ⟨cs, h1, h2, h3⟩ := ih
            ((b + usub64 ((env.compel_syscall ctx.calls.length (seg_call fd b flags es)).2 % 2 ^ 64)
              (page_start ((b + es.vaddr) % 2 ^ 64))) % 2 ^ 64)
            (flags ||| MAP_FIXED)
            { ctx with calls := ctx.calls ++ [seg_call fd b flags es] }
            (Nat.mod_lt _ (by norm_num))
          refine ⟨seg_call fd b flags es :: cs, by rw [h1]; simp, ?_, ?_⟩
          · rw [List.filter_cons_of_pos hm, List.length_cons, List.take_succ_cons,
              List.map_cons, List.map_cons, h2]
            rfl
          · intro i c hic hfail
            cases i with
            | zero =>
              simp only [List.getElem?_cons_zero, Option.some.injEq] at hic
              rw [← hic] at hfail
              exact absurd hfail hf
            | succ j =>
              simp only [List.getElem?_cons_succ] at hic
              have hidx : ctx.calls.length + (j + 1) =
                  (ctx.calls ++ [seg_call fd b flags es]).length + j := by
                simp only [List.length_append, List.length_singleton]
                omega
              rw [hidx] at hfail
              obtain ⟨hr, hl⟩ := h3 j c hic hfail
              exact ⟨hr, by simp only [List.length_cons]; omega⟩

/-- C18: if opening the replacement file in the victim fails, `load_elf` returns -1
without any remote `mmap` (and without a close).  If both opens succeed, `load_elf`
closes the remote descriptor exactly once, the remote `mmap` calls it issues belong, in
program-header order, to the first mapped segments, and if one of these calls fails
(the tracer call fails or the syscall result is negative, so that `process_create_map`
yields -1) then it is the last call issued and `load_elf` returns -1. -/
theorem load_elf_failure (ctx : Ctx) (env : LoadEnv) (segs : List ElfSegment) (hint : Nat) :
    (env.process_open_file < 0 → load_elf ctx env segs hint = ⟨-1, ctx, []⟩) ∧
    (0 ≤ env.open_local → 0 ≤ env.process_open_file →
      (load_elf ctx env segs hint).closed = [env.process_open_file] ∧
      ∃ cs, (load_elf ctx env segs hint).ctx.calls = ctx.calls ++ cs ∧
        cs.map call_shape =
          ((segs.filter is_mapped).take cs.length).map (seg_shape env.process_open_file) ∧
        ∀ i c, cs[i]? = some c →
          ((env.compel_syscall (ctx.calls.length + i) c).1 < 0 ∨
            toLong (env.compel_syscall (ctx.calls.length + i) c).2 < 0) →
          (load_elf ctx env segs hint).ret = -1 ∧ i + 1 = cs.length) := by
  refine ⟨?_, ?_⟩
  · intro h
    unfold load_elf
    by_cases h1 : env.open_local < 0
    · simp only [h1, if_true]
    · simp only [h1, h, if_true, if_false]
  · intro hopen1 hopen2
    have hb0 : hint &&& 0xfffffffff0000000 < 2 ^ 64 :=
      lt_of_le_of_lt Nat.and_le_right (by norm_num)
    have h1 : ¬ env.open_local < 0 := by omega
    have h2 : ¬ env.process_open_file < 0 := by omega
    obtain ⟨cs, hc, hs, hf⟩ := load_segments_failure env env.process_open_file segs
      (hint &&& 0xfffffffff0000000) MAP_PRIVATE ctx hb0
    unfold load_elf
    simp only [h1, h2, if_false]
    refine ⟨trivial, cs, hc, hs, ?_⟩
    intro i c hic hfail
    obtain ⟨hr, hl⟩ := hf i c hic hfail
    refine ⟨?_, hl⟩
    rw [hr]
    decide

/-- Witness of C18: with three PT_LOAD segments and the second remote `mmap` failing,
`load_elf` returns -1 after two requests and closes descriptor 3 once; with a failing
remote open it returns -1 and issues nothing. -/
theorem load_elf_failure_witness :
    load_elf ⟨[], [], []⟩ env_fail_second [s6_text, s6_data, s6_data] 0x7f0000000000 =
      ⟨-1, ⟨[], [], [⟨0x7f0000000000, 0x1000, 5, 2, 3, 0⟩,
        ⟨0x7f0000001000, 0x1000, 3, 0x12, 3, 0x1000⟩]⟩, [3]⟩ ∧
    (load_elf ⟨[], [], []⟩ env_fail_second [s6_text, s6_data, s6_data] 0x7f0000000000).closed
      = [env_fail_second.process_open_file] ∧
    load_elf ⟨[], [], []⟩ ⟨3, -1, fun _ c => (0, c.addr)⟩ [s6_text, s6_data] 0x7f0000000000 =
      ⟨-1, ⟨[], [], []⟩, []⟩ :=
  ⟨by decide,
    ((load_elf_failure ⟨[], [], []⟩ env_fail_second [s6_text, s6_data, s6_data]
      0x7f0000000000).2 (by decide) (by decide)).1,
    (load_elf_failure ⟨[], [], []⟩ ⟨3, -1, fun _ c => (0, c.addr)⟩ [s6_text, s6_data]
      0x7f0000000000).1 (by decide)⟩

/-- Headers before the first mapped segment leave the bias and the context alone. -/
theorem load_segments_unmapped_prefix (env : LoadEnv) (fd : Int) (pre rest : List ElfSegment)
    (hpre : ∀ s ∈ pre, s.type ≠ "PT_LOAD" ∨ seg_size s = 0) :
    ∀ (b flags : Nat) (ctx : Ctx), b < 2 ^ 64 →
      ∃ flags1, load_segments env fd (pre ++ rest) b flags ctx =
        load_segments env fd rest b flags1 ctx := by
  induction pre with
  | nil => intro b flags ctx _; exact ⟨flags, rfl⟩
  | cons s ss ih =>
    intro b flags ctx hb
    have ih' := ih (fun t ht => hpre t (by simp [ht]))
    show ∃ flags1, load_segments env fd (s :: (ss ++ rest)) b flags ctx = _
    rw [load_segments_step env fd s (ss ++ rest) b flags ctx hb]
    rcases hpre s (by simp) with h | h
    · rw [if_pos h]
      exact ih' b flags ctx hb
    · by_cases ht : s.type ≠ "PT_LOAD"
      · rw [if_pos ht]
        exact ih' b flags ctx hb
      · rw [if_neg ht, if_pos h]
        exact ih' b _ ctx hb

/-- Once every remote `mmap` lands where it was requested, the bias no longer moves. -/
theorem load_segments_pinned (env : LoadEnv) (fd : Int) (k0 : Nat)
    (hlater : ∀ k c, k0 ≤ k → c.addr < 2 ^ 63 →
      0 ≤ (env.compel_syscall k c).1 ∧ (env.compel_syscall k c).2 = c.addr)
    (segs : List ElfSegment) :
    ∀ (b flags : Nat) (ctx : Ctx), k0 ≤ ctx.calls.length → b < 2 ^ 64 →
      (∀ s ∈ segs, b + s.vaddr < 2 ^ 63) →
      (load_segments env fd segs b flags ctx).1 = b := by
  induction segs with
  | nil => intro b flags ctx _ _ _; rfl
  | cons es rest ih =>
    intro b flags ctx hk hb hfit
    have hfit' : ∀ s ∈ rest, b + s.vaddr < 2 ^ 63 := fun s hs => hfit s (by simp [hs])
    have hes : b + es.vaddr < 2 ^ 63 := hfit es (by simp)
    rw [load_segments_step env fd es rest b flags ctx hb]
    split
    · exact ih b flags ctx hk hb hfit'
    · split
      · exact ih b _ ctx hk hb hfit'
      · have hmod : (b + es.vaddr) % 2 ^ 64 = b + es.vaddr := Nat.mod_eq_of_lt (by omega)
        have haddr : (seg_call fd b flags es).addr = page_start (b + es.vaddr) := by
          show page_start ((b + es.vaddr) % 2 ^ 64) = _
          rw [hmod]
        have hps := page_start_le (b + es.vaddr)
        obtain ⟨ha1, ha2⟩ := hlater ctx.calls.length (seg_call fd b flags es) hk
          (by rw [haddr]; omega)
        rw [ha2, haddr, hmod]
        have hnf : ¬ ((env.compel_syscall ctx.calls.length (seg_call fd b flags es)).1 < 0 ∨
            toLong (page_start (b + es.vaddr)) < 0) := by
          rw [toLong_of_lt _ (by omega)]
          omega
        rw [if_neg hnf]
        have hb' : (b + usub64 (page_start (b + es.vaddr) % 2 ^ 64)
            (page_start (b + es.vaddr))) % 2 ^ 64 = b := by
          unfold usub64
          omega
        rw [hb']
        exact ih b _ _ (by simp only [List.length_append, List.length_singleton]; omega) hb hfit'

/-- C13: if both opens succeed, the first remote `mmap` succeeds and returns the address
`r`, and every later remote `mmap` (all of them carry MAP_FIXED) returns exactly the
address it requested, then `load_elf` returns `r - page_start(v1)`, where `v1` is the
`vaddr` of the first mapped PT_LOAD segment; in particular it returns `r` when
`v1 < 4096`, whatever `hint` was.  Addresses are user-space addresses: `r` and the
images of the later segments lie below `2^63`, and `page_start(v1) ≤ r`. -/
theorem load_elf_final_bias (ctx : Ctx) (env : LoadEnv) (hint : Nat)
    (pre : List ElfSegment) (s1 : ElfSegment) (post : List ElfSegment) (r : Nat)
    (hopen1 : 0 ≤ env.open_local) (hopen2 : 0 ≤ env.process_open_file)
    (hpre : ∀ s ∈ pre, s.type ≠ "PT_LOAD" ∨ seg_size s = 0)
    (ht : s1.type = "PT_LOAD") (hsz : seg_size s1 ≠ 0)
    (hfirst : ∀ c, 0 ≤ (env.compel_syscall ctx.calls.length c).1 ∧
      (env.compel_syscall ctx.calls.length c).2 = r)
    (hr : r < 2 ^ 63) (hge : page_start s1.vaddr ≤ r)
    (hlater : ∀ k c, ctx.calls.length < k → c.addr < 2 ^ 63 →
      0 ≤ (env.compel_syscall k c).1 ∧ (env.compel_syscall k c).2 = c.addr)
    (hfit : ∀ s ∈ post, r - page_start s1.vaddr + s.vaddr < 2 ^ 63) :
    (load_elf ctx env (pre ++ s1 :: post) hint).ret = ((r - page_start s1.vaddr : Nat) : Int) ∧
    (s1.vaddr < 4096 → (load_elf ctx env (pre ++ s1 :: post) hint).ret = (r : Int)) := by
  have hb0 : hint &&& 0xfffffffff0000000 < 2 ^ 64 :=
    lt_of_le_of_lt Nat.and_le_right (by norm_num)
  have hal : (hint &&& 0xfffffffff0000000) % 4096 = 0 := by
    rw [and_bias_mask]
    omega
  have h1 : ¬ env.open_local < 0 := by omega
  have h2 : ¬ env.process_open_file < 0 := by omega
  have hmain : (load_elf ctx env (pre ++ s1 :: post) hint).ret =
      ((r - page_start s1.vaddr : Nat) : Int) := by
    obtain ⟨flags1, hpfx⟩ := load_segments_unmapped_prefix env env.process_open_file pre
      (s1 :: post) hpre (hint &&& 0xfffffffff0000000) MAP_PRIVATE ctx hb0
    unfold load_elf
    simp only [h1, h2, if_false, hpfx]
    rw [load_segments_step env _ s1 post _ flags1 ctx hb0, if_neg (not_not.mpr ht), if_neg hsz]
    obtain ⟨hf1, hf2⟩ := hfirst (seg_call env.process_open_file
      (hint &&& 0xfffffffff0000000) flags1 s1)
    have hnf : ¬ ((env.compel_syscall ctx.calls.length (seg_call env.process_open_file
          (hint &&& 0xfffffffff0000000) flags1 s1)).1 < 0 ∨
        toLong (env.compel_syscall ctx.calls.length (seg_call env.process_open_file
          (hint &&& 0xfffffffff0000000) flags1 s1)).2 < 0) := by
      rw [hf2, toLong_of_lt _ hr]
      omega
    rw [if_neg hnf, hf2]
    have hb1 : ((hint &&& 0xfffffffff0000000) + usub64 (r % 2 ^ 64)
        (page_start (((hint &&& 0xfffffffff0000000) + s1.vaddr) % 2 ^ 64))) % 2 ^ 64 =
        r - page_start s1.vaddr := by
      unfold usub64
      unfold page_start at hge ⊢
      omega
    rw [hb1]
    rw [load_segments_pinned env env.process_open_file (ctx.calls.length + 1)
      (fun k c hk hc => hlater k c (by omega) hc) post (r - page_start s1.vaddr) _ _
      (by simp only [List.length_append, List.length_singleton]; omega) (by omega) hfit]
    exact toLong_of_lt _ (by omega)
  refine ⟨hmain, ?_⟩
  intro hv
  rw [hmain]
  have : page_start s1.vaddr = 0 := by
    unfold page_start
    omega
  rw [this, Nat.sub_zero]

/-- Witness of C13 (scenario S6): the kernel places the first mapping at 0x7f0000400000
instead of the requested 0x7f0000000000 and honours the MAP_FIXED request for the second
segment; `load_elf` returns 0x7f0000400000. -/
theorem load_elf_final_bias_witness :
    (load_elf ⟨[], [], []⟩ env_float ([] ++ s6_text :: [s6_data]) 0x7f0000000000).ret =
      ((0x7f0000400000 - page_start s6_text.vaddr : Nat) : Int) ∧
    (s6_text.vaddr < 4096 →
      (load_elf ⟨[], [], []⟩ env_float ([] ++ s6_text :: [s6_data]) 0x7f0000000000).ret =
        ((0x7f0000400000 : Nat) : Int)) :=
  load_elf_final_bias ⟨[], [], []⟩ env_float 0x7f0000000000 [] s6_text [s6_data] 0x7f0000400000
    (by decide) (by decide) (by simp) (by decide) (by decide)
    (fun _ => ⟨le_refl _, rfl⟩) (by norm_num) (by decide)
    (fun k c hk _ => by
      have hk0 : k ≠ 0 := by
        intro h
        rw [h] at hk
        exact absurd hk (by decide)
      show 0 ≤ (if k = 0 then ((0 : Int), 0x7f0000400000) else (0, c.addr)).1 ∧
        (if k = 0 then ((0 : Int), 0x7f0000400000) else (0, c.addr)).2 = c.addr
      rw [if_neg hk0]
      exact ⟨le_refl _, rfl⟩)
    (by decide)

/-! ## Claim on the parsing of the memory map -/

/-- C19: for the line of an anonymous mapping the white space before `%n` consumes the
trailing blank and the newline, so the stored path is empty and the NUL is written at
index `strlen(path) - 1 = 2^64 - 1` (one byte before the string), outside the stored
path.  For a line with a path the newline is stripped in bounds. -/
theorem collect_vmas_line_empty_path :
    (sscanf_maps anon_line).map (fun f => f.path_off) = some anon_line.length ∧
    collect_vmas_line anon_line = LineOutcome.out_of_bounds (2 ^ 64 - 1) ∧
    collect_vmas_line file_line =
      LineOutcome.added ⟨0x7f0000000000, 0x7f0000001000, 5, 2, 0, "/usr/lib/liba.so"⟩ := by
  refine ⟨by decide, by decide, by decide⟩

/-! ## Lemmas on allocations from one place -/

/-- Function `process_create_place` either assigns no place and records none, or
returns 0 for a place appended at the address the successful remote `mmap` returned. -/
theorem process_create_place_served (ctx : Ctx) (env : Env) (hint size : Nat) :
    ((process_create_place ctx env hint size).2.2 = none ∧
      (process_create_place ctx env hint size).2.1.places = ctx.places) ∨
    ((process_create_place ctx env hint size).1 = 0 ∧
      (process_create_place ctx env hint size).2.2 = some ctx.places.length ∧
      ∃ addr, (process_create_place ctx env hint size).2.1.places =
          ctx.places ++ [⟨addr, round_up size PAGE_SIZE, 0⟩] ∧
        0 ≤ (env.compel_syscall ⟨addr, round_up size PAGE_SIZE,
          PROT_READ ||| PROT_WRITE ||| PROT_EXEC, MAP_ANONYMOUS ||| MAP_PRIVATE, -1, 0⟩).1 ∧
        0 ≤ toLong (env.compel_syscall ⟨addr, round_up size PAGE_SIZE,
          PROT_READ ||| PROT_WRITE ||| PROT_EXEC, MAP_ANONYMOUS ||| MAP_PRIVATE, -1, 0⟩).2 ∧
        (env.compel_syscall ⟨addr, round_up size PAGE_SIZE,
          PROT_READ ||| PROT_WRITE ||| PROT_EXEC, MAP_ANONYMOUS ||| MAP_PRIVATE, -1, 0⟩).2
            % 2 ^ 64 = addr) := by
  unfold process_create_place
  simp only [Nat.not_lt_zero, if_false]
  split
  · exact Or.inl ⟨rfl, rfl⟩
  · unfold process_create_map
    simp only []
    generalize process_find_hole ctx env hint (round_up size PAGE_SIZE) = addr
    generalize hans : env.compel_syscall ⟨addr, round_up size PAGE_SIZE,
      PROT_READ ||| PROT_WRITE ||| PROT_EXEC, MAP_ANONYMOUS ||| MAP_PRIVATE, -1, 0⟩ = ans
    by_cases h1 : ans.1 < 0
    · rw [if_pos h1]
      exact Or.inl ⟨rfl, rfl⟩
    · rw [if_neg h1]
      by_cases h2 : toLong ans.2 < 0
      · rw [if_pos h2]
        exact Or.inl ⟨rfl, rfl⟩
      · rw [if_neg h2]
        have hne : ¬ toLong ans.2 = -1 := by omega
        simp only [hne, if_false, ofLong_toLong]
        by_cases h3 : ans.2 % 2 ^ 64 = addr
        · rw [if_neg (not_not.mpr h3)]
          refine Or.inr ⟨rfl, rfl, addr, rfl, ?_, ?_, ?_⟩
          · rw [hans]; omega
          · rw [hans]; omega
          · rw [hans]; exact h3
        · rw [if_pos h3]
          exact Or.inl ⟨rfl, rfl⟩

theorem mmap_sane_env_sane : mmap_sane env_sane := by
  intro c h1 h2
  by_cases hc : c.size = 0 ∨ 2 ^ 63 ≤ c.addr + c.size
  · have : env_sane.compel_syscall c = (-1, 0) := if_pos hc
    rw [this] at h1
    exact absurd h1 (by decide)
  · have : env_sane.compel_syscall c = (0, c.addr) := if_neg hc
    rw [this]
    simp only []
    omega

theorem mmap_rejects_empty_of_sane (env : Env) (h : mmap_sane env) : mmap_rejects_empty env :=
  fun c hc hok => (h c hok.1 hok.2).1 hc

/-- One call of `process_get_place` keeps the inventory and the place invariant, for
every requested size, when the remote `mmap` never succeeds for a length of 0. -/
theorem process_get_place_ok (ctx : Ctx) (env : Env) (hint size : Nat)
    (hal : ∀ v ∈ ctx.vmas, v.end_ % PAGE_SIZE = 0) (hinv : PlacesOk ctx.places)
    (hrej : mmap_rejects_empty env) :
    (process_get_place ctx env hint size).2.vmas = ctx.vmas ∧
    PlacesOk (process_get_place ctx env hint size).2.places := by
  have hcp := process_create_place_cases ctx env hint (round_up size 16)
  have hsv := process_create_place_served ctx env hint (round_up size 16)
  unfold process_get_place
  simp only []
  split
  · generalize process_create_place ctx env hint (round_up size 16) = r at hcp hsv ⊢
    obtain ⟨hv, hcase⟩ := hcp
    have hinv1 : PlacesOk r.2.1.places := by
      rcases hcase with ⟨_, hp⟩ | ⟨_, _, v, hvm, hp⟩
      · rw [hp]; exact hinv
      · rw [hp]
        intro q hq
        rcases List.mem_append.mp hq with h | h
        · exact hinv q h
        · have hq' : q = ⟨v.end_, round_up (round_up size 16) PAGE_SIZE, 0⟩ := by simpa using h
          subst hq'
          have ha := round_up_page_aligned (round_up size 16)
          exact ⟨Nat.zero_le _, ha.1, hal v hvm, ha.2⟩
    split
    · exact ⟨hv, hinv1⟩
    · have hal1 := place_alloc_ok r.2.1 r.2.2 (round_up size 16) hinv1 (by
        intro j place hj hget
        rcases hsv with ⟨hn, _⟩ | ⟨_, hi, addr, hp, ha1, ha2, _⟩
        · rw [hn] at hj; cases hj
        · rw [hi] at hj
          cases hj
          rw [hp] at hget
          simp at hget
          subst hget
          have hnz : round_up (round_up size 16) PAGE_SIZE ≠ 0 :=
            fun h0 => hrej _ h0 ⟨ha1, ha2⟩
          have hlt : round_up size 16 < 2 ^ 64 := Nat.mod_lt _ (by norm_num)
          show 0 + round_up size 16 ≤ round_up (round_up size 16) PAGE_SIZE
          unfold round_up PAGE_SIZE at hnz ⊢
          unfold round_up at hlt
          omega)
      exact ⟨hal1.1.trans hv, hal1.2⟩
  · rename_i i hfind
    split
    · exact ⟨rfl, hinv⟩
    · rename_i place hget
      split
      · exact ⟨rfl, hinv⟩
      · rename_i hroom
        exact place_alloc_ok ctx (some i) (round_up size 16) hinv (by
          intro j pl hj hgetj
          cases hj
          rw [hget] at hgetj
          cases hgetj
          obtain ⟨h1, h2, _, _⟩ := hinv place (List.getElem?_mem hget)
          unfold usub64 at hroom
          omega)

theorem run_get_place_ok (calls : List GetPlaceCall) (ctx : Ctx)
    (hal : ∀ v ∈ ctx.vmas, v.end_ % PAGE_SIZE = 0) (hinv : PlacesOk ctx.places)
    (hrej : ∀ c ∈ calls, mmap_rejects_empty c.env) :
    PlacesOk (run_get_place ctx calls).places := by
  induction calls generalizing ctx with
  | nil => exact hinv
  | cons c cs ih =>
    have hstep := process_get_place_ok ctx c.env c.hint c.size hal hinv (hrej c (by simp))
    unfold run_get_place
    generalize process_get_place ctx c.env c.hint c.size = r at hstep ⊢
    obtain ⟨res, ctx1⟩ := r
    cases res with
    | none => exact hstep.2
    | some v =>
      exact ih ctx1 (by intro u hu; exact hal u (hstep.1 ▸ hu)) hstep.2
        (fun d hd => hrej d (by simp [hd]))

/-! ## Claim on the place invariant -/

/-- C7: starting from an empty place set and an inventory whose VMA boundaries are
page-aligned, after any sequence of `process_get_place` calls, of any sizes and hints,
successful or failing, with any remote `mmap` results that `mmap` can give (a request of
length 0 never succeeds), every recorded place `p` satisfies `p.used ≤ p.size`,
`p.start mod 4096 = 0` and `p.size mod 4096 = 0`. -/
theorem run_get_place_invariant (vmas : List VmaArea) (calls : List GetPlaceCall)
    (hal : ∀ v ∈ vmas, v.start % 4096 = 0 ∧ v.end_ % 4096 = 0)
    (hrej : ∀ c ∈ calls, mmap_rejects_empty c.env) :
    ∀ p ∈ (run_get_place ⟨vmas, [], []⟩ calls).places,
      p.used ≤ p.size ∧ p.start % 4096 = 0 ∧ p.size % 4096 = 0 := by
  intro p hp
  have h := run_get_place_ok calls ⟨vmas, [], []⟩ (fun v hv => (hal v hv).2)
    (by intro q hq; cases hq) hrej p hp
  exact ⟨h.1, h.2.2.1, h.2.2.2⟩

/-- Witness of C7: under the S3 inventory, two requests of 64 bytes, then one of
`2^64 - 16` bytes under another hint (its page-rounded size wraps to 0, so its remote
`mmap` is refused and the call fails with -1), then a request the full place refuses:
one place `[0x1000, +4096)` with 128 bytes in use is recorded. -/
theorem run_get_place_invariant_witness :
    (run_get_place ⟨s3_vmas, [], []⟩
        [⟨env_sane, 0x100, 64⟩, ⟨env_sane, 0x200, 64⟩,
         ⟨env_sane, 0x7f0000000000, 2 ^ 64 - 16⟩, ⟨env_sane, 0x300, 8192⟩]).places
      = [⟨0x1000, 4096, 128⟩] ∧
    (process_get_place ⟨s3_vmas, [⟨0x1000, 4096, 128⟩], []⟩ env_sane
        0x7f0000000000 (2 ^ 64 - 16)).1 = some (-1) ∧
    ∀ p ∈ (run_get_place ⟨s3_vmas, [], []⟩
        [⟨env_sane, 0x100, 64⟩, ⟨env_sane, 0x200, 64⟩,
         ⟨env_sane, 0x7f0000000000, 2 ^ 64 - 16⟩, ⟨env_sane, 0x300, 8192⟩]).places,
      p.used ≤ p.size ∧ p.start % 4096 = 0 ∧ p.size % 4096 = 0 :=
  ⟨by decide, by decide,
    run_get_place_invariant s3_vmas
      [⟨env_sane, 0x100, 64⟩, ⟨env_sane, 0x200, 64⟩,
       ⟨env_sane, 0x7f0000000000, 2 ^ 64 - 16⟩, ⟨env_sane, 0x300, 8192⟩] (by decide)
      (fun c hc => by
        have hce : c.env = env_sane := by
          simp only [List.mem_cons, List.mem_singleton, List.not_mem_nil, or_false] at hc
          rcases hc with h | h | h | h <;> rw [h]
        rw [hce]
        exact mmap_rejects_empty_of_sane env_sane mmap_sane_env_sane)⟩

end Nsb
